import Mathlib

/-!
Verification development for the MinesMultiplayer game server core
(`gameManager.js` together with the socket handlers of `server.js`).

The JavaScript `Map` objects (`games`, `timers`), plain objects used as
string-keyed dictionaries (`bombPlacements`), and JS arrays written at
arbitrary indices (`revealedFields` rows) are all embedded as association
lists with an explicit `lookupA`/`setA`/`removeA` interface.  `setInterval`
handles are embedded as an association list of live interval records keyed
by a monotonically allocated interval id, mirroring the timer ids handed
out by the JS runtime; a ghost `fired` log records each invocation of an
`onComplete` callback so that "invoked exactly once" is statable.
-/

namespace Mines

/-- Association-list lookup: first entry with the given key. -/
def lookupA {κ β : Type} [DecidableEq κ] : List (κ × β) → κ → Option β
  | [], _ => none
  | e :: rest, k => if e.1 = k then some e.2 else lookupA rest k

/-- Remove every entry with the given key (JS `Map.delete`). -/
def removeA {κ β : Type} [DecidableEq κ] : List (κ × β) → κ → List (κ × β)
  | [], _ => []
  | e :: rest, k => if e.1 = k then removeA rest k else e :: removeA rest k

/-- Store a value under a key (JS `Map.set` / `obj[k] = v`): the old
binding, if any, is dropped and the new one appended. -/
def setA {κ β : Type} [DecidableEq κ] (l : List (κ × β)) (k : κ) (v : β) : List (κ × β) :=
  removeA l k ++ [(k, v)]

theorem lookupA_removeA_self {κ β : Type} [DecidableEq κ] (l : List (κ × β)) (k : κ) :
    lookupA (removeA l k) k = none := by
  induction l with
  | nil => rfl
  | cons e rest ih =>
    by_cases h : e.1 = k
    · simpa [removeA, h] using ih
    · simpa [removeA, h, lookupA] using ih

theorem lookupA_removeA_ne {κ β : Type} [DecidableEq κ] (l : List (κ × β)) (k k' : κ)
    (h : k' ≠ k) : lookupA (removeA l k) k' = lookupA l k' := by
  induction l with
  | nil => rfl
  | cons e rest ih =>
    by_cases he : e.1 = k
    · have hke : ¬ (e.1 = k') := fun hk => h (hk ▸ he)
      simp only [removeA, if_pos he, lookupA, if_neg hke]
      exact ih
    · by_cases he' : e.1 = k'
      · simp only [removeA, if_neg he, lookupA, if_pos he']
      · simp only [removeA, if_neg he, lookupA, if_neg he']
        exact ih

theorem lookupA_setA_self {κ β : Type} [DecidableEq κ] (l : List (κ × β)) (k : κ) (v : β) :
    lookupA (setA l k v) k = some v := by
  induction l with
  | nil => simp [setA, removeA, lookupA]
  | cons e rest ih =>
    by_cases he : e.1 = k
    · show lookupA (removeA (e :: rest) k ++ [(k, v)]) k = some v
      rw [removeA, if_pos he]
      exact ih
    · show lookupA (removeA (e :: rest) k ++ [(k, v)]) k = some v
      rw [removeA, if_neg he, List.cons_append]
      have hke : ¬ (e.1 = k) := he
      simp only [lookupA, if_neg hke]
      exact ih

theorem lookupA_setA_ne {κ β : Type} [DecidableEq κ] (l : List (κ × β)) (k k' : κ) (v : β)
    (h : k' ≠ k) : lookupA (setA l k v) k' = lookupA l k' := by
  induction l with
  | nil =>
    have hk : ¬ (k = k') := fun hk => h hk.symm
    simp only [setA, removeA, List.nil_append, lookupA, if_neg hk]
  | cons e rest ih =>
    by_cases he : e.1 = k
    · have hke : ¬ (e.1 = k') := fun hk => h (hk ▸ he)
      show lookupA (removeA (e :: rest) k ++ [(k, v)]) k' = _
      rw [removeA, if_pos he]
      simp only [lookupA, if_neg hke]
      exact ih
    · by_cases he' : e.1 = k'
      · show lookupA (removeA (e :: rest) k ++ [(k, v)]) k' = _
        rw [removeA, if_neg he, List.cons_append]
        simp only [lookupA, if_pos he']
      · show lookupA (removeA (e :: rest) k ++ [(k, v)]) k' = _
        rw [removeA, if_neg he, List.cons_append]
        simp only [lookupA, if_neg he']
        exact ih

theorem mem_of_lookupA {κ β : Type} [DecidableEq κ] {l : List (κ × β)} {k : κ} {v : β}
    (h : lookupA l k = some v) : (k, v) ∈ l := by
  induction l with
  | nil => simp [lookupA] at h
  | cons e rest ih =>
    by_cases he : e.1 = k
    · simp [lookupA, he] at h
      rw [show (k, v) = e from by cases e; simp_all]
      exact List.mem_cons_self _ _
    · simp [lookupA, he] at h
      exact List.mem_cons_of_mem _ (ih h)

theorem mem_removeA {κ β : Type} [DecidableEq κ] {l : List (κ × β)} {k : κ} {e : κ × β} :
    e ∈ removeA l k ↔ e ∈ l ∧ e.1 ≠ k := by
  induction l with
  | nil => simp [removeA]
  | cons f rest ih =>
    by_cases hf : f.1 = k
    · rw [removeA, if_pos hf, ih]
      constructor
      · exact fun ⟨h1, h2⟩ => ⟨List.mem_cons_of_mem _ h1, h2⟩
      · rintro ⟨h1, h2⟩
        rcases List.mem_cons.1 h1 with h | h
        · exact absurd (h ▸ hf) h2
        · exact ⟨h, h2⟩
    · rw [removeA, if_neg hf]
      constructor
      · intro hm
        rcases List.mem_cons.1 hm with h | h
        · exact ⟨h ▸ List.mem_cons_self _ _, h ▸ hf⟩
        · exact ⟨List.mem_cons_of_mem _ (ih.1 h).1, (ih.1 h).2⟩
      · rintro ⟨h1, h2⟩
        rcases List.mem_cons.1 h1 with h | h
        · exact h ▸ List.mem_cons_self _ _
        · exact List.mem_cons_of_mem _ (ih.2 ⟨h, h2⟩)

theorem mem_setA {κ β : Type} [DecidableEq κ] {l : List (κ × β)} {k : κ} {v : β} {e : κ × β} :
    e ∈ setA l k v ↔ (e ∈ l ∧ e.1 ≠ k) ∨ e = (k, v) := by
  simp [setA, List.mem_append, mem_removeA]

theorem removeA_append {κ β : Type} [DecidableEq κ] (l₁ l₂ : List (κ × β)) (k : κ) :
    removeA (l₁ ++ l₂) k = removeA l₁ k ++ removeA l₂ k := by
  induction l₁ with
  | nil => rfl
  | cons e rest ih =>
    by_cases he : e.1 = k
    · simpa [removeA, he] using ih
    · simpa [removeA, he] using ih

theorem removeA_removeA {κ β : Type} [DecidableEq κ] (l : List (κ × β)) (k : κ) :
    removeA (removeA l k) k = removeA l k := by
  induction l with
  | nil => rfl
  | cons e rest ih =>
    by_cases he : e.1 = k
    · simpa [removeA, he] using ih
    · simpa [removeA, he] using ih

theorem setA_setA {κ β : Type} [DecidableEq κ] (l : List (κ × β)) (k : κ) (v w : β) :
    setA (setA l k v) k w = setA l k w := by
  simp [setA, removeA_append, removeA_removeA, removeA]

/-! ## Data model (from `gameManager.js`)

Strings are used for `status` and `phase` exactly as the source does
("waiting" / "in-progress" / "completed", "placement" / "gameplay" /
"ended").  A JS array row of the revealed grid is an association list
`Nat → Bool` so that reads of never-written indices yield `none`
(JS `undefined`, which is falsy), matching the unchecked indexing of the
source.  Bomb grids are plain `List (List Nat)` (arrays of 0/1 numbers);
out-of-range reads yield `none`, which is `!== 1`. -/

/-- One row of `state.revealedFields`: a JS array of booleans, indexed
property table. -/
abbrev Row : Type := List (Nat × Bool)

/-- A player-submitted or auto-generated bomb grid (`bombs[x][y]` numbers). -/
abbrev BombGrid : Type := List (List Nat)

/-- `game.state` of `createGame` (gameManager.js:22-29).  `playerBombs` is
present in the source but never read or written afterwards; it is carried
verbatim. -/
structure GameState where
  phase : String
  round : Nat
  timeLeft : Int
  currentPlayer : Option String
  playerBombs : List (String × BombGrid)
  revealedFields : List Row
deriving DecidableEq

/-- A match object (gameManager.js:11-32). -/
structure Game where
  id : String
  creator : String
  opponent : Option String
  size : String
  bombs : Nat
  betAmount : Int
  gameWallet : String
  gameWalletSecret : String
  status : String
  createdAt : Nat
  state : GameState
  bothPlayersReady : Bool
  bombPlacements : List (String × BombGrid)
deriving DecidableEq

/-- Which closure a `setInterval` timer will run on expiry:
the placement-phase timer of `startGame` (auto-place bombs, then start
gameplay) or the per-turn timer of `startGameplayPhase` / `revealField`
(`handleRoundTimeout`). -/
inductive TimerCb where
  | placementExpiry : TimerCb
  | turnExpiry : TimerCb
deriving DecidableEq

/-- A live `setInterval` handle: the match it serves, the closure-local
`timeLeft` counter of `startTimer`, and the expiry callback. -/
structure IntervalRec where
  gameId : String
  timeLeft : Int
  cb : TimerCb
deriving DecidableEq

/-- The whole mutable state of the server core: the `games` and `timers`
maps of `GameManager`, the set of live `setInterval` handles of the JS
runtime (keyed by monotonically allocated ids), the deletions scheduled by
`endGame`'s `setTimeout`, and a ghost log of fired timer callbacks. -/
structure GM where
  games : List (String × Game)
  timers : List (String × Nat)
  intervals : List (Nat × IntervalRec)
  nextIntervalId : Nat
  pendingDeletes : List String
  fired : List (String × TimerCb)
deriving DecidableEq

/-- The empty manager (constructor of `GameManager`). -/
def initGM : GM := ⟨[], [], [], 0, [], []⟩

/-- `parseInt(size.charAt(0))` for well-formed size labels such as
"5x5": the leading digit; 0 for labels not starting with a digit
(the NaN paths of `parseInt` are out of scope). -/
def gridSizeOf (size : String) : Nat :=
  match size.data with
  | c :: _ => if c.isDigit then c.toNat - 48 else 0
  | [] => 0

/-- A fresh all-false revealed row: `Array(gridSize).fill(false)`. -/
def initRow (n : Nat) : Row := (List.range n).map (fun i => (i, false))

/-- Errors thrown by `GameManager` methods, and the `TypeError` the JS
runtime raises on indexing `undefined` (reading `revealedFields[x][y]`
with `x` out of range). -/
inductive Err where
  | gameNotFound : Err
  | gameIsFull : Err
  | cannotJoinOwn : Err
  | notInGameplay : Err
  | notYourTurn : Err
  | alreadyRevealed : Err
  | typeError : Err
deriving DecidableEq

/-! ## TimerService (gameManager.js:250-279) -/

/-- `clearTimer` (gameManager.js:273-279): `clearInterval` the mapped
handle and drop the map entry; no-op when none exists. -/
def clearTimer (gid : String) (s : GM) : GM :=
  match lookupA s.timers gid with
  | none => s
  | some iid =>
    { s with intervals := removeA s.intervals iid, timers := removeA s.timers gid }

/-- `startTimer` (gameManager.js:250-271): always `clearTimer` first, then
register a fresh interval and record its id in the `timers` map. -/
def startTimer (gid : String) (secs : Int) (cb : TimerCb) (s : GM) : GM :=
  let s' := clearTimer gid s
  { s' with
    intervals := setA s'.intervals s'.nextIntervalId ⟨gid, secs, cb⟩,
    timers := setA s'.timers gid s'.nextIntervalId,
    nextIntervalId := s'.nextIntervalId + 1 }

/-! ## Lifecycle / turn engine (gameManager.js) -/

/-- The payload of the `create-game` command, after the escrow
collaborator produced the wallet. -/
structure GameData where
  creator : String
  size : String
  bombs : Nat
  betAmount : Int
  gameWallet : String
  gameWalletSecret : String
deriving DecidableEq

/-- `createGame` (gameManager.js:7-37).  The generated random id and
`Date.now()` are parameters; the new match is stored unconditionally with
`games.set`, with no collision check against live ids. -/
def createGame (gid : String) (now : Nat) (d : GameData) (s : GM) : Game × GM :=
  let n := gridSizeOf d.size
  let g : Game :=
    { id := gid, creator := d.creator, opponent := none, size := d.size,
      bombs := d.bombs, betAmount := d.betAmount, gameWallet := d.gameWallet,
      gameWalletSecret := d.gameWalletSecret, status := "waiting", createdAt := now,
      state :=
        { phase := "placement", round := 1, timeLeft := 30,
          currentPlayer := some d.creator, playerBombs := [],
          revealedFields := List.replicate n (initRow n) },
      bothPlayersReady := false, bombPlacements := [] }
  (g, { s with games := setA s.games gid g })

/-- `joinGame` (gameManager.js:39-51). -/
def joinGame (gid pid : String) (s : GM) : Except Err (Game × GM) :=
  match lookupA s.games gid with
  | none => .error .gameNotFound
  | some g =>
    if g.opponent.isSome then .error .gameIsFull
    else if g.creator = pid then .error .cannotJoinOwn
    else
      let g' := { g with opponent := some pid, status := "in-progress" }
      .ok (g', { s with games := setA s.games gid g' })

/-- `startGame` (gameManager.js:72-82): arm the 10-second placement timer
whose expiry auto-places bombs and starts the gameplay phase. -/
def startGame (gid : String) (s : GM) : GM :=
  match lookupA s.games gid with
  | none => s
  | some _ => startTimer gid 10 .placementExpiry s

/-- One random draw of `autoPlaceBombs` (gameManager.js:105-111): pick an
index into the remaining `positions` from the random stream, mark the cell,
and drop the position (`splice`).  `Math.floor(Math.random()*len)` is
modelled by `r % len`, which has the same range. -/
def drawBombs : Nat → List (Nat × Nat) → List Nat → List (List Nat) →
    List (List Nat) × List Nat
  | 0, _, rand, grid => (grid, rand)
  | k + 1, positions, rand, grid =>
    if positions.length = 0 then (grid, rand)
    else
      let r := rand.headD 0
      let idx := r % positions.length
      let pos := positions.getD idx (0, 0)
      let grid' :=
        match grid.get? pos.1 with
        | some row => grid.set pos.1 (row.set pos.2 1)
        | none => grid
      drawBombs k (positions.eraseIdx idx) rand.tail grid'

/-- Auto-placement for one player (gameManager.js:92-115): only players
with no stored placement get a fresh random grid. -/
def autoFor (gridSize : Nat) (bombCount : Nat) (pid : String)
    (acc : List (String × BombGrid) × List Nat) : List (String × BombGrid) × List Nat :=
  match lookupA acc.1 pid with
  | some _ => acc
  | none =>
    let positions := (List.range gridSize).flatMap
      (fun x => (List.range gridSize).map (fun y => (x, y)))
    let zero : List (List Nat) := List.replicate gridSize (List.replicate gridSize 0)
    let res := drawBombs bombCount positions acc.2 zero
    (setA acc.1 pid res.1, res.2)

/-- `autoPlaceBombs` (gameManager.js:84-119): fill a random grid for every
participant without a placement ( `[creator, opponent].filter(Boolean)` ),
then set `bothPlayersReady`. -/
def autoPlaceBombs (gid : String) (rand : List Nat) (s : GM) : GM :=
  match lookupA s.games gid with
  | none => s
  | some g =>
    let n := gridSizeOf g.size
    let players := match g.opponent with
      | some o => [g.creator, o]
      | none => [g.creator]
    let filled := players.foldl (fun acc pid => autoFor n g.bombs pid acc)
      (g.bombPlacements, rand)
    let g' := { g with bombPlacements := filled.1, bothPlayersReady := true }
    { s with games := setA s.games gid g' }

/-- `startGameplayPhase` (gameManager.js:137-150): set phase, per-turn
countdown and current player, then arm the 5-second turn timer. -/
def startGameplayPhase (gid : String) (s : GM) : GM :=
  match lookupA s.games gid with
  | none => s
  | some g =>
    let g' := { g with state :=
      { g.state with phase := "gameplay", timeLeft := 5, currentPlayer := some g.creator } }
    let s' := { s with games := setA s.games gid g' }
    startTimer gid 5 .turnExpiry s'

/-- `confirmBombPlacement` (gameManager.js:121-135): store the submitted
grid under the submitting player id — with no membership, phase, or count
validation — and start gameplay once exactly two placements exist. -/
def confirmBombPlacement (gid pid : String) (bombs : BombGrid) (s : GM) : GM :=
  match lookupA s.games gid with
  | none => s
  | some g =>
    let g' := { g with bombPlacements := setA g.bombPlacements pid bombs }
    let s' := { s with games := setA s.games gid g' }
    if g'.bombPlacements.length = 2 then
      let g'' := { g' with bothPlayersReady := true }
      let s'' := { s' with games := setA s'.games gid g'' }
      startGameplayPhase gid (clearTimer gid s'')
    else s'

/-- The result object of `revealField`. On the bomb path the source
returns `{gameEnded: true, winner, content}`; on the coin path the
`winner` field is absent, modelled as `none`. -/
structure RevealResult where
  gameEnded : Bool
  winner : Option String
  content : String
deriving DecidableEq

/-- `revealField` (gameManager.js:152-188).  All four validations throw
before any mutation.  Reading `revealedFields[x]` with `x` out of range
makes the subsequent `[y]` indexing throw a `TypeError` in JS, modelled by
`Err.typeError`.  `hasBomb` mirrors the short-circuit
`opponentBombs && opponentBombs[x] && opponentBombs[x][y] === 1`. -/
def revealField (gid pid : String) (x y : Nat) (s : GM) :
    Except Err (RevealResult × GM) :=
  match lookupA s.games gid with
  | none => .error .gameNotFound
  | some g =>
    if g.state.phase ≠ "gameplay" then .error .notInGameplay
    else if g.state.currentPlayer ≠ some pid then .error .notYourTurn
    else
      match g.state.revealedFields.get? x with
      | none => .error .typeError
      | some row =>
        if (lookupA row y).getD false then .error .alreadyRevealed
        else
          let opponentId : Option String :=
            if pid = g.creator then g.opponent else some g.creator
          let hasBomb : Bool :=
            match opponentId with
            | none => false
            | some oid =>
              match lookupA g.bombPlacements oid with
              | none => false
              | some og =>
                match og.get? x with
                | none => false
                | some br => decide (br.get? y = some 1)
          let content := if hasBomb then "bomb" else "coin"
          let row' := setA row y true
          let g₁ := { g with state :=
            { g.state with revealedFields := g.state.revealedFields.set x row' } }
          let s₁ := { s with games := setA s.games gid g₁ }
          if hasBomb then
            .ok ({ gameEnded := true, winner := opponentId, content := content }, s₁)
          else
            let st₂ := { g₁.state with
              currentPlayer := opponentId,
              round := g₁.state.round + 1,
              timeLeft := 5 }
            let g₂ := { g₁ with state := st₂ }
            let s₂ := { s₁ with games := setA s₁.games gid g₂ }
            let s₃ := startTimer gid 5 .turnExpiry (clearTimer gid s₂)
            .ok ({ gameEnded := false, winner := none, content := content }, s₃)

/-- `handleRoundTimeout` (gameManager.js:190-201): computes the winner
(the participant other than `currentPlayer`), logs, and RETURNS it —
without ending the match or mutating any state.  The returned value is
discarded by the timer callback that invokes it. -/
def handleRoundTimeout (gid : String) (s : GM) : Option (Option String) × GM :=
  match lookupA s.games gid with
  | none => (none, s)
  | some g =>
    let winner : Option String :=
      if g.state.currentPlayer = some g.creator then g.opponent else some g.creator
    (some winner, s)

/-- `endGame` (gameManager.js:203-218): mark the match completed/ended,
cancel its timer, and schedule removal from the registry
(`setTimeout(() => games.delete(gameId), 5000)`). -/
def endGame (gid : String) (s : GM) : GM :=
  match lookupA s.games gid with
  | none => s
  | some g =>
    let g' := { g with
      status := "completed",
      state := { g.state with phase := "ended" } }
    let s' := { s with games := setA s.games gid g' }
    let s'' := clearTimer gid s'
    { s'' with pendingDeletes := s''.pendingDeletes ++ [gid] }

/-- `exitGame` (gameManager.js:220-236). -/
def exitGame (gid pid : String) (s : GM) : GM :=
  match lookupA s.games gid with
  | none => s
  | some g =>
    if g.creator = pid ∧ g.opponent = none then endGame gid s
    else if g.creator = pid ∨ g.opponent = some pid then endGame gid s
    else s

/-- `handlePlayerDisconnect` (gameManager.js:238-248): `exitGame` on every
match the player participates in (iterating the registry key set). -/
def handlePlayerDisconnect (pid : String) (s : GM) : GM :=
  (s.games.map Prod.fst).foldl
    (fun acc gid =>
      match lookupA acc.games gid with
      | some g =>
        if g.creator = pid ∨ g.opponent = some pid then exitGame gid pid acc else acc
      | none => acc) s

/-- `cleanupOldGames` (gameManager.js:286-296): `endGame` every match older
than 30 minutes. -/
def cleanupOldGames (now : Nat) (s : GM) : GM :=
  (s.games.map Prod.fst).foldl
    (fun acc gid =>
      match lookupA acc.games gid with
      | some g => if 30 * 60 * 1000 < now - g.createdAt then endGame gid acc else acc
      | none => acc) s

/-! ## Timer expiry and server-level commands (`server.js`) -/

/-- Run a timer's `onComplete` closure and append it to the ghost `fired`
log.  The placement timer of `startGame` runs `autoPlaceBombs` then
`startGameplayPhase` (gameManager.js:77-81); the turn timer runs
`handleRoundTimeout` and discards its return value
(gameManager.js:147-149, 183-185). -/
def runCb (cb : TimerCb) (gid : String) (rand : List Nat) (s : GM) : GM :=
  let s' := { s with fired := s.fired ++ [(gid, cb)] }
  match cb with
  | .placementExpiry => startGameplayPhase gid (autoPlaceBombs gid rand s')
  | .turnExpiry => (handleRoundTimeout gid s').2

/-- One firing of a live `setInterval` handle (the body of `startTimer`,
gameManager.js:254-268): if the match has been removed from the registry,
self-cancel via `clearTimer` without running `onComplete`; otherwise
decrement the closure-local counter, mirror it into
`game.state.timeLeft`, and on reaching zero clear the timer and run
`onComplete`.  `rand` feeds `autoPlaceBombs` when a placement timer
expires. -/
def tick (iid : Nat) (rand : List Nat) (s : GM) : GM :=
  match lookupA s.intervals iid with
  | none => s
  | some rec =>
    match lookupA s.games rec.gameId with
    | none => clearTimer rec.gameId s
    | some g =>
      let t := rec.timeLeft - 1
      let s₁ := { s with intervals := setA s.intervals iid { rec with timeLeft := t } }
      let g' := { g with state := { g.state with timeLeft := t } }
      let s₂ := { s₁ with games := setA s₁.games rec.gameId g' }
      if t ≤ 0 then runCb rec.cb rec.gameId rand (clearTimer rec.gameId s₂)
      else s₂

/-- The deferred `games.delete(gameId)` of `endGame` firing. -/
def removalFire (gid : String) (s : GM) : GM :=
  if gid ∈ s.pendingDeletes then
    { s with games := removeA s.games gid, pendingDeletes := s.pendingDeletes.erase gid }
  else s

/-- The `join-game` handler (server.js, final revision): guards
(status must be `waiting`, no opponent, no self-join, non-empty player id,
bet equal to the creator's and truthy), then `joinGame` and `startGame`.
Escrow calls are external; their failures abort before any state change,
which coincides with the no-op branch. -/
def joinOp (gid pid : String) (bet : Int) (s : GM) : GM :=
  match lookupA s.games gid with
  | none => s
  | some g =>
    if g.status ≠ "waiting" then s
    else if g.opponent.isSome then s
    else if g.creator = pid then s
    else if pid = "" then s
    else if bet = 0 ∨ bet ≠ g.betAmount then s
    else
      match joinGame gid pid s with
      | .error _ => s
      | .ok (_, s') => startGame gid s'

/-- The `confirm-bomb-placement` handler (server.js):
`confirmBombPlacement`, then — if the re-read match has
`bothPlayersReady` — a second `startGameplayPhase`. -/
def confirmOp (gid pid : String) (bombs : BombGrid) (s : GM) : GM :=
  let s' := confirmBombPlacement gid pid bombs s
  match lookupA s'.games gid with
  | some g => if g.bothPlayersReady then startGameplayPhase gid s' else s'
  | none => s'

/-- The `reveal-field` handler (server.js): `revealField`; on a thrown
error the catch block leaves state untouched; on `gameEnded` the handler
pays out (external) and calls `endGame`. -/
def revealOp (gid pid : String) (x y : Nat) (s : GM) : GM :=
  match revealField gid pid x y s with
  | .error _ => s
  | .ok (res, s') => if res.gameEnded then endGame gid s' else s'

/-- The `create-game` handler: wallet creation and bet validation are
external and happen before `createGame`; on their failure nothing is
stored.  The stored-state effect is exactly `createGame`. -/
def createOp (gid : String) (now : Nat) (d : GameData) (s : GM) : GM :=
  (createGame gid now d s).2

/-- Every command or scheduled event that can mutate the core state:
player commands as dispatched by `server.js`, timer interval firings,
the deferred registry removals, and the periodic stale-match sweep.
Randomness (`generateGameId`, `Math.random` in `autoPlaceBombs`) and
wall-clock readings are carried as parameters of the events. -/
inductive Op where
  | create (gid : String) (now : Nat) (d : GameData) : Op
  | join (gid pid : String) (bet : Int) : Op
  | confirm (gid pid : String) (bombs : BombGrid) : Op
  | reveal (gid pid : String) (x y : Nat) : Op
  | timerTick (iid : Nat) (rand : List Nat) : Op
  | exit (gid pid : String) : Op
  | disconnect (pid : String) : Op
  | endMatch (gid : String) : Op
  | cleanup (now : Nat) : Op
  | removal (gid : String) : Op
deriving DecidableEq

/-- Apply one operation to the core state. -/
def applyOp : Op → GM → GM
  | .create gid now d, s => createOp gid now d s
  | .join gid pid bet, s => joinOp gid pid bet s
  | .confirm gid pid bombs, s => confirmOp gid pid bombs s
  | .reveal gid pid x y, s => revealOp gid pid x y s
  | .timerTick iid rand, s => tick iid rand s
  | .exit gid pid, s => exitGame gid pid s
  | .disconnect pid, s => handlePlayerDisconnect pid s
  | .endMatch gid, s => endGame gid s
  | .cleanup now, s => cleanupOldGames now s
  | .removal gid, s => removalFire gid s

/-- Run a sequence of operations from a starting state. -/
def runOps (ops : List Op) (s : GM) : GM := ops.foldl (fun t op => applyOp op t) s

/-! ## Open-games listing (`getOpenGames`, gameManager.js:57-70) -/

/-- The public projection of a match used in the open-games listing:
exactly the fields the source copies (id, creator, size label, bomb
count, bet amount, status, createdAt).  The wallet fields, the bomb
placements and the revealed grid are not part of this type. -/
structure OpenGameView where
  id : String
  creator : String
  size : String
  bombs : Nat
  betAmount : Int
  status : String
  createdAt : Nat
deriving DecidableEq

/-- The projection `game => ({id, creator, size, bombs, betAmount,
status, createdAt})`. -/
def toOpenView (g : Game) : OpenGameView :=
  { id := g.id, creator := g.creator, size := g.size, bombs := g.bombs,
    betAmount := g.betAmount, status := g.status, createdAt := g.createdAt }

/-- Stable insertion into a list sorted by `createdAt` descending,
matching `sort((a, b) => b.createdAt - a.createdAt)` of a stable JS
`Array.prototype.sort`. -/
def insertDesc (v : OpenGameView) : List OpenGameView → List OpenGameView
  | [] => [v]
  | w :: ws => if w.createdAt < v.createdAt then v :: w :: ws else w :: insertDesc v ws

/-- Insertion sort by `createdAt` descending. -/
def sortDesc (l : List OpenGameView) : List OpenGameView := l.foldr insertDesc []

/-- `getOpenGames` (gameManager.js:57-70): the matches with status
`waiting`, projected to the public view, sorted newest first. -/
def getOpenGames (s : GM) : List OpenGameView :=
  sortDesc (((s.games.map Prod.snd).filter
    (fun g => decide (g.status = "waiting"))).map toOpenView)

/-! ## Component lemmas for the timer service -/

theorem clearTimer_games (gid : String) (s : GM) : (clearTimer gid s).games = s.games := by
  unfold clearTimer; cases lookupA s.timers gid <;> rfl

theorem clearTimer_pendingDeletes (gid : String) (s : GM) :
    (clearTimer gid s).pendingDeletes = s.pendingDeletes := by
  unfold clearTimer; cases lookupA s.timers gid <;> rfl

theorem clearTimer_fired (gid : String) (s : GM) : (clearTimer gid s).fired = s.fired := by
  unfold clearTimer; cases lookupA s.timers gid <;> rfl

theorem clearTimer_nextIntervalId (gid : String) (s : GM) :
    (clearTimer gid s).nextIntervalId = s.nextIntervalId := by
  unfold clearTimer; cases lookupA s.timers gid <;> rfl

theorem clearTimer_lookup_timers_self (gid : String) (s : GM) :
    lookupA (clearTimer gid s).timers gid = none := by
  unfold clearTimer
  cases hl : lookupA s.timers gid with
  | none => exact hl
  | some iid => simp only [lookupA_removeA_self]

theorem clearTimer_lookup_timers_ne (gid gid' : String) (s : GM) (h : gid' ≠ gid) :
    lookupA (clearTimer gid s).timers gid' = lookupA s.timers gid' := by
  unfold clearTimer
  cases hl : lookupA s.timers gid with
  | none => rfl
  | some iid => simp only [lookupA_removeA_ne _ _ _ h]

theorem startTimer_games (gid : String) (secs : Int) (cb : TimerCb) (s : GM) :
    (startTimer gid secs cb s).games = s.games := by
  unfold startTimer
  simp only [clearTimer_games]

theorem startTimer_pendingDeletes (gid : String) (secs : Int) (cb : TimerCb) (s : GM) :
    (startTimer gid secs cb s).pendingDeletes = s.pendingDeletes := by
  unfold startTimer
  simp only [clearTimer_pendingDeletes]

theorem startTimer_fired (gid : String) (secs : Int) (cb : TimerCb) (s : GM) :
    (startTimer gid secs cb s).fired = s.fired := by
  unfold startTimer
  simp only [clearTimer_fired]

theorem startTimer_lookup_timers_self (gid : String) (secs : Int) (cb : TimerCb) (s : GM) :
    lookupA (startTimer gid secs cb s).timers gid = some s.nextIntervalId := by
  unfold startTimer
  simp only [lookupA_setA_self, clearTimer_nextIntervalId]

theorem startTimer_lookup_intervals_new (gid : String) (secs : Int) (cb : TimerCb) (s : GM) :
    lookupA (startTimer gid secs cb s).intervals s.nextIntervalId =
      some ⟨gid, secs, cb⟩ := by
  unfold startTimer
  simp only [lookupA_setA_self, clearTimer_nextIntervalId]

theorem get?_set_self {α : Type} (l : List α) (n : Nat) (a : α) (h : n < l.length) :
    (l.set n a).get? n = some a := by
  induction l generalizing n with
  | nil => simp at h
  | cons b bs ih =>
    cases n with
    | zero => rfl
    | succ m => exact ih m (Nat.lt_of_succ_lt_succ h)

/-! ## A concrete demonstration run used by witnesses and counterexamples

A 2-by-2 match "g1" between "alice" (creator) and "bob": both confirm a
one-bomb grid, alice reveals bob's mined cell (0,0) and loses. -/

def demoData : GameData :=
  { creator := "alice", size := "2x2", bombs := 1, betAmount := 1,
    gameWallet := "w", gameWalletSecret := "sec" }

def demo1 : GM := applyOp (.create "g1" 100 demoData) initGM

def demo2 : GM := applyOp (.join "g1" "bob" 1) demo1

def demo3 : GM := applyOp (.confirm "g1" "alice" [[0, 1], [0, 0]]) demo2

def demo4 : GM := applyOp (.confirm "g1" "bob" [[1, 0], [0, 0]]) demo3

def demo5 : GM := applyOp (.reveal "g1" "alice" 0 0) demo4

/-- A stale `confirm-bomb-placement` replay arriving during the 5-second
grace window after the match ended. -/
def demo6 : GM := applyOp (.confirm "g1" "alice" [[0, 1], [0, 0]]) demo5

/-! ## Claim C3 — phase/status monotonicity: counterexample -/

/-- Claim C3, counterexample.  After match "g1" has ended (phase
"ended", via alice revealing bob's bomb), a replayed
`confirm-bomb-placement` from alice — arriving during the grace window in
which the ended match is still registered — finds two stored placements
and re-runs `startGameplayPhase`, moving `phase` backwards from Ended to
Gameplay.  This refutes "phase only ever moves Placement → Gameplay →
Ended and never backward" for the operation sequence
create, join, confirm, confirm, reveal, confirm. -/
theorem phase_regresses_after_end :
    (lookupA demo5.games "g1").map (fun g => g.state.phase) = some "ended" ∧
    (lookupA demo5.games "g1").map (fun g => g.status) = some "completed" ∧
    (lookupA demo6.games "g1").map (fun g => g.state.phase) = some "gameplay" := by
  decide

/-! ## Claim C8 — bombPlacements size/immutability: counterexample -/

/-- A `confirm-bomb-placement` from "carol", who is not a participant of
"g1", sent while the match is already in the Gameplay phase. -/
def demoCarol : GM := applyOp (.confirm "g1" "carol" [[1, 1], [1, 1]]) demo4

/-- Claim C8, counterexample.  `confirmBombPlacement` validates neither
membership nor phase: a third player's confirm during Gameplay grows
`bombPlacements` to three entries and mutates the mapping after gameplay
started, refuting both halves of the claim. -/
theorem bombPlacements_third_entry :
    (lookupA demo4.games "g1").map (fun g => g.state.phase) = some "gameplay" ∧
    (lookupA demo4.games "g1").map (fun g => g.bombPlacements.length) = some 2 ∧
    (lookupA demoCarol.games "g1").map (fun g => g.bombPlacements.length) = some 3 := by
  decide

/-! ## Claim C9 — id generation is not collision-checked -/

def demoDataCarol : GameData := { demoData with creator := "carol" }

/-- A registry holding a live match under id "abc"... -/
def collideOld : GM := applyOp (.create "abc" 100 demoData) initGM

/-- ... and a second create whose randomly generated id collides. -/
def collideNew : GM := applyOp (.create "abc" 200 demoDataCarol) collideOld

/-- Claim C9, counterexample.  `generateGameId` draws from `Math.random`
and `createGame` stores with `games.set(gameId, game)` without checking
the id against live matches: a colliding id silently replaces the
existing live match instead of being re-rolled. -/
theorem createGame_collision_overwrites :
    (lookupA collideOld.games "abc").map Game.creator = some "alice" ∧
    (lookupA collideNew.games "abc").map Game.creator = some "carol" ∧
    collideNew.games.length = 1 := by
  decide

/-- Claim C9, amended: `createGame` stores the new match under the
generated id unconditionally — other registry entries are untouched, but
no collision check protects an existing live match under the same id
(the previous theorem shows the overwrite). -/
theorem createGame_stores_unconditionally (s : GM) (gid : String) (now : Nat) (d : GameData) :
    lookupA (createOp gid now d s).games gid = some (createGame gid now d s).1 ∧
    (∀ gid', gid' ≠ gid → lookupA (createOp gid now d s).games gid' = lookupA s.games gid') := by
  constructor
  · exact lookupA_setA_self _ _ _
  · intro gid' h
    exact lookupA_setA_ne _ _ _ _ h

/-- Witness for the amended C9 theorem at a concrete input. -/
theorem createGame_stores_unconditionally_witness :
    lookupA (createOp "a" 0 demoData initGM).games "b" = lookupA initGM.games "b" :=
  (createGame_stores_unconditionally initGM "a" 0 demoData).2 "b" (by decide)

/-! ## Claim C2 — turn timeout (code bug) -/

/-- The turn timer of "g1" (interval id 2, armed when gameplay started)
firing five times: the fifth tick reaches zero and runs
`handleRoundTimeout`. -/
def demoTimeout : GM :=
  runOps [.timerTick 2 [], .timerTick 2 [], .timerTick 2 [],
    .timerTick 2 [], .timerTick 2 []] demo4

/-- Claim C2, code-bug evidence.  When the per-turn timer of a Gameplay
match expires, `handleRoundTimeout` runs (the ghost log records exactly
one firing), correctly computes the other participant "bob" as winner and
logs "Game ended" — but its return value is discarded by the timer
callback: no cell is revealed, yet the match does NOT end.  Status stays
"in-progress", phase stays "gameplay", `endGame` is never invoked (no
removal is scheduled) and the timer is gone, leaving the match stuck. -/
theorem turn_timeout_leaves_match_running :
    (handleRoundTimeout "g1" demo4).1 = some (some "bob") ∧
    (handleRoundTimeout "g1" demo4).2 = demo4 ∧
    demoTimeout.fired = [("g1", TimerCb.turnExpiry)] ∧
    (lookupA demoTimeout.games "g1").map (fun g => g.status) = some "in-progress" ∧
    (lookupA demoTimeout.games "g1").map (fun g => g.state.phase) = some "gameplay" ∧
    (lookupA demoTimeout.games "g1").map (fun g => g.state.revealedFields) =
      (lookupA demo4.games "g1").map (fun g => g.state.revealedFields) ∧
    demoTimeout.pendingDeletes = [] ∧
    demoTimeout.timers = [] := by
  decide

/-! ## Claim C7 — the open-games listing -/

theorem insertDesc_perm (v : OpenGameView) (l : List OpenGameView) :
    (insertDesc v l).Perm (v :: l) := by
  induction l with
  | nil => exact List.Perm.refl _
  | cons w ws ih =>
    by_cases h : w.createdAt < v.createdAt
    · rw [insertDesc, if_pos h]
    · rw [insertDesc, if_neg h]
      exact (ih.cons w).trans (List.Perm.swap v w ws)

theorem sortDesc_perm (l : List OpenGameView) : (sortDesc l).Perm l := by
  induction l with
  | nil => exact List.Perm.refl _
  | cons v ws ih => exact (insertDesc_perm v (sortDesc ws)).trans (ih.cons v)

theorem insertDesc_sorted (v : OpenGameView) (l : List OpenGameView)
    (h : l.Pairwise (fun a b => b.createdAt ≤ a.createdAt)) :
    (insertDesc v l).Pairwise (fun a b => b.createdAt ≤ a.createdAt) := by
  induction l with
  | nil => simp [insertDesc]
  | cons w ws ih =>
    rcases List.pairwise_cons.1 h with ⟨hw, hws⟩
    by_cases hlt : w.createdAt < v.createdAt
    · rw [insertDesc, if_pos hlt]
      refine List.pairwise_cons.2 ⟨?_, h⟩
      intro b hb
      rcases List.mem_cons.1 hb with hb | hb
      · exact hb ▸ le_of_lt hlt
      · exact le_trans (hw b hb) (le_of_lt hlt)
    · rw [insertDesc, if_neg hlt]
      refine List.pairwise_cons.2 ⟨?_, ih hws⟩
      intro b hb
      have hbm := (insertDesc_perm v ws).mem_iff.1 hb
      rcases List.mem_cons.1 hbm with hb' | hb'
      · exact hb' ▸ le_of_not_lt hlt
      · exact hw b hb'

theorem sortDesc_sorted (l : List OpenGameView) :
    (sortDesc l).Pairwise (fun a b => b.createdAt ≤ a.createdAt) := by
  induction l with
  | nil => simp [sortDesc]
  | cons v ws ih => exact insertDesc_sorted v (sortDesc ws) ih

/-- Claim C7.  `getOpenGames` returns exactly the matches with status
"waiting" (a permutation of their projections, in particular the same
multiset), sorted by `createdAt` descending; every returned element is
the public projection `toOpenView` of some waiting match — a projection
whose type `OpenGameView` carries only id, creator, size label, bomb
count, bet amount, status and createdAt, and in particular neither the
wallet secret material nor any bomb or revealed grid. -/
theorem getOpenGames_spec (s : GM) :
    (getOpenGames s).Perm
      (((s.games.map Prod.snd).filter
        (fun g => decide (g.status = "waiting"))).map toOpenView) ∧
    (getOpenGames s).Pairwise (fun a b => b.createdAt ≤ a.createdAt) ∧
    (∀ v ∈ getOpenGames s, ∃ g, g ∈ s.games.map Prod.snd ∧
      g.status = "waiting" ∧ v = toOpenView g) := by
  refine ⟨sortDesc_perm _, sortDesc_sorted _, ?_⟩
  intro v hv
  have hvm := (sortDesc_perm _).mem_iff.1 hv
  rcases List.mem_map.1 hvm with ⟨g, hg, hgv⟩
  rcases List.mem_filter.1 hg with ⟨hgm, hst⟩
  exact ⟨g, hgm, of_decide_eq_true hst, hgv.symm⟩

/-- The projection of the demonstration match while it is still open. -/
def demoView : OpenGameView :=
  { id := "g1", creator := "alice", size := "2x2", bombs := 1,
    betAmount := 1, status := "waiting", createdAt := 100 }

/-- Witness for C7: instantiating the membership clause on the concrete
one-match registry `demo1`. -/
theorem getOpenGames_spec_witness :
    ∃ g, g ∈ demo1.games.map Prod.snd ∧ g.status = "waiting" ∧ demoView = toOpenView g :=
  (getOpenGames_spec demo1).2.2 demoView (by decide)

/-! ## Claim C4 — `endGame` is an idempotent terminal transition -/

/-- The terminal update `endGame` applies to a match object. -/
def endedGame (g : Game) : Game :=
  { g with status := "completed", state := { g.state with phase := "ended" } }

/-- The registry as it will stand after every removal scheduled so far
has fired. -/
def settledGames (s : GM) : List (String × Game) :=
  s.pendingDeletes.foldl (fun gs gid => removeA gs gid) s.games

theorem clearTimer_setGames (gid : String) (X : List (String × Game)) (s : GM) :
    clearTimer gid { s with games := X } = { clearTimer gid s with games := X } := by
  simp only [clearTimer]
  cases lookupA s.timers gid <;> rfl

/-- Computation of `endGame` on a live match. -/
theorem endGame_eq (s : GM) (gid : String) (g : Game)
    (h : lookupA s.games gid = some g) :
    endGame gid s =
      { clearTimer gid s with
        games := setA s.games gid (endedGame g),
        pendingDeletes := s.pendingDeletes ++ [gid] } := by
  unfold endGame
  rw [h]
  show ({ clearTimer gid { s with games := setA s.games gid (endedGame g) } with
    pendingDeletes :=
      (clearTimer gid { s with games := setA s.games gid (endedGame g) }).pendingDeletes
        ++ [gid] } : GM) = _
  rw [clearTimer_setGames, clearTimer_pendingDeletes]

theorem endedGame_endedGame (g : Game) : endedGame (endedGame g) = endedGame g := rfl

theorem clearTimer_of_none (gid : String) (t : GM) (ht : lookupA t.timers gid = none) :
    clearTimer gid t = t := by
  unfold clearTimer
  rw [ht]

/-- Claim C4.  One `endGame` call on a live match marks it
completed/ended, cancels its timer, and schedules its removal; a second
call recreates exactly the same games, timers, intervals and fired log,
and the one extra scheduled removal it adds changes nothing once all
removals fire (`settledGames` agrees), so the terminal state is the same
with no additional effect on the registry. -/
theorem endGame_idempotent (s : GM) (gid : String) (g : Game)
    (h : lookupA s.games gid = some g) :
    (lookupA (endGame gid s).games gid).map Game.status = some "completed" ∧
    (lookupA (endGame gid s).games gid).map (fun g' => g'.state.phase) = some "ended" ∧
    lookupA (endGame gid s).timers gid = none ∧
    gid ∈ (endGame gid s).pendingDeletes ∧
    (endGame gid (endGame gid s)).games = (endGame gid s).games ∧
    (endGame gid (endGame gid s)).timers = (endGame gid s).timers ∧
    (endGame gid (endGame gid s)).intervals = (endGame gid s).intervals ∧
    (endGame gid (endGame gid s)).fired = (endGame gid s).fired ∧
    settledGames (endGame gid (endGame gid s)) = settledGames (endGame gid s) := by
  have he1 := endGame_eq s gid g h
  have hlook1 : lookupA (endGame gid s).games gid = some (endedGame g) := by
    rw [he1]
    show lookupA (setA s.games gid (endedGame g)) gid = _
    rw [lookupA_setA_self]
  have htimers1 : lookupA (endGame gid s).timers gid = none := by
    rw [he1]
    show lookupA (clearTimer gid s).timers gid = none
    exact clearTimer_lookup_timers_self gid s
  have he2 := endGame_eq (endGame gid s) gid (endedGame g) hlook1
  rw [clearTimer_of_none gid (endGame gid s) htimers1] at he2
  have hg1 : (endGame gid s).games = setA s.games gid (endedGame g) := by
    rw [he1]
  have hgamesflat : setA (endGame gid s).games gid (endedGame (endedGame g)) =
      (endGame gid s).games := by
    rw [endedGame_endedGame, hg1, setA_setA]
  refine ⟨?_, ?_, htimers1, ?_, ?_, ?_, ?_, ?_, ?_⟩
  · rw [hlook1]; rfl
  · rw [hlook1]; rfl
  · rw [he1]
    show gid ∈ s.pendingDeletes ++ [gid]
    exact List.mem_append_right _ (List.mem_singleton.2 rfl)
  · rw [he2]
    show setA (endGame gid s).games gid (endedGame (endedGame g)) = _
    exact hgamesflat
  · rw [he2]
  · rw [he2]
  · rw [he2]
  · rw [he2]
    show settledGames
      { endGame gid s with
        games := setA (endGame gid s).games gid (endedGame (endedGame g)),
        pendingDeletes := (endGame gid s).pendingDeletes ++ [gid] } = _
    rw [hgamesflat]
    unfold settledGames
    show ((endGame gid s).pendingDeletes ++ [gid]).foldl
      (fun gs gid => removeA gs gid) (endGame gid s).games = _
    rw [List.foldl_append]
    simp only [List.foldl_cons, List.foldl_nil]
    rw [he1]
    show removeA ((s.pendingDeletes ++ [gid]).foldl
      (fun gs gid => removeA gs gid) (setA s.games gid (endedGame g))) gid = _
    rw [List.foldl_append]
    simp only [List.foldl_cons, List.foldl_nil, removeA_removeA]

/-- Witness for C4 on the concrete ended match of the demonstration
run. -/
theorem endGame_idempotent_witness :
    lookupA (endGame "g1" demo5).timers "g1" = none ∧
    settledGames (endGame "g1" (endGame "g1" demo5)) = settledGames (endGame "g1" demo5) := by
  have hl : lookupA demo5.games "g1" =
      some ((lookupA demo5.games "g1").getD (createGame "x" 0 demoData initGM).1) := by
    decide
  have hall := endGame_idempotent demo5 "g1" _ hl
  exact ⟨hall.2.2.1, hall.2.2.2.2.2.2.2.2⟩

/-! ## Canonical forms of the `revealField` computation -/

/-- `playerId === game.creator ? game.opponent : game.creator`. -/
def oppIdOf (g : Game) (pid : String) : Option String :=
  if pid = g.creator then g.opponent else some g.creator

/-- The `hasBomb` truthiness chain of `revealField`
(gameManager.js:163). -/
def hasBombOf (g : Game) (pid : String) (x y : Nat) : Bool :=
  match oppIdOf g pid with
  | none => false
  | some oid =>
    match lookupA g.bombPlacements oid with
    | none => false
    | some og =>
      match og.get? x with
      | none => false
      | some br => decide (br.get? y = some 1)

/-- The match after `revealedFields[x][y] = true`. -/
def gAfterMark (g : Game) (x y : Nat) (row : Row) : Game :=
  { g with state :=
    { g.state with revealedFields := g.state.revealedFields.set x (setA row y true) } }

/-- The match after the additional coin-path mutations (turn switch,
round increment, reset countdown). -/
def gAfterCoin (g : Game) (pid : String) (x y : Nat) (row : Row) : Game :=
  { gAfterMark g x y row with state :=
    { (gAfterMark g x y row).state with
      currentPlayer := oppIdOf g pid,
      round := g.state.round + 1,
      timeLeft := 5 } }

/-- The spec-side reading of "the opponent's bomb grid marks (x,y) as
mined". -/
def marksMine (grid : BombGrid) (x y : Nat) : Prop :=
  ∃ br, grid.get? x = some br ∧ br.get? y = some 1

theorem hasBombOf_iff (g : Game) (pid : String) (x y : Nat) (oppId : String)
    (oppGrid : BombGrid) (hopp : oppIdOf g pid = some oppId)
    (hbg : lookupA g.bombPlacements oppId = some oppGrid) :
    (hasBombOf g pid x y = true) ↔ marksMine oppGrid x y := by
  unfold hasBombOf marksMine
  rw [hopp]
  dsimp only
  rw [hbg]
  dsimp only
  cases hgx : List.get? oppGrid x with
  | none =>
    constructor
    · exact fun hf => absurd hf Bool.false_ne_true
    · rintro ⟨br, hbr, hbr1⟩
      exact Option.noConfusion hbr
  | some br =>
    constructor
    · intro hd
      exact ⟨br, rfl, of_decide_eq_true hd⟩
    · rintro ⟨br', hbr', h1⟩
      injection hbr' with hbb
      subst hbb
      exact decide_eq_true h1

def bombState (s : GM) (gid : String) (x y : Nat) (g : Game) (row : Row) : GM :=
  { s with games := setA s.games gid (gAfterMark g x y row) }

def coinState (s : GM) (gid pid : String) (x y : Nat) (g : Game) (row : Row) : GM :=
  startTimer gid 5 .turnExpiry (clearTimer gid
    { s with
      games := setA (setA s.games gid (gAfterMark g x y row)) gid (gAfterCoin g pid x y row) })

theorem revealField_run (s : GM) (gid pid : String) (x y : Nat) (g : Game) (row : Row)
    (hg : lookupA s.games gid = some g)
    (hphase : g.state.phase = "gameplay")
    (hturn : g.state.currentPlayer = some pid)
    (hrow : g.state.revealedFields.get? x = some row)
    (hnot : (lookupA row y).getD false = false) :
    revealField gid pid x y s =
      (if hasBombOf g pid x y then
        .ok ({ gameEnded := true, winner := oppIdOf g pid, content := "bomb" },
          bombState s gid x y g row)
      else
        .ok ({ gameEnded := false, winner := none, content := "coin" },
          coinState s gid pid x y g row)) := by
  have hphase' : ¬ (g.state.phase ≠ "gameplay") := not_not_intro hphase
  have hturn' : ¬ (g.state.currentPlayer ≠ some pid) := not_not_intro hturn
  have hnot' : ¬ ((lookupA row y).getD false = true) := by
    rw [hnot]; exact Bool.false_ne_true
  unfold revealField
  rw [hg]
  dsimp only
  rw [if_neg hphase', if_neg hturn', hrow]
  dsimp only
  rw [if_neg hnot']
  have hb' : (match (if pid = g.creator then g.opponent else some g.creator : Option String) with
    | none => false
    | some oid =>
      match lookupA g.bombPlacements oid with
      | none => false
      | some og =>
        match List.get? og x with
        | none => false
        | some br => decide (br.get? y = some 1) : Bool) = hasBombOf g pid x y := rfl
  rw [hb']
  cases hb : hasBombOf g pid x y with
  | true =>
    simp only [if_pos rfl]
    rfl
  | false =>
    simp only [if_neg Bool.false_ne_true]
    rfl

/-! ## `revealField` error paths -/

theorem revealField_err_notFound (s : GM) (gid pid : String) (x y : Nat)
    (hg : lookupA s.games gid = none) :
    revealField gid pid x y s = .error .gameNotFound := by
  unfold revealField
  rw [hg]

theorem revealField_err_phase (s : GM) (gid pid : String) (x y : Nat) (g : Game)
    (hg : lookupA s.games gid = some g) (hphase : g.state.phase ≠ "gameplay") :
    revealField gid pid x y s = .error .notInGameplay := by
  unfold revealField
  rw [hg]
  dsimp only
  rw [if_pos hphase]

theorem revealField_err_turn (s : GM) (gid pid : String) (x y : Nat) (g : Game)
    (hg : lookupA s.games gid = some g) (hphase : g.state.phase = "gameplay")
    (hturn : g.state.currentPlayer ≠ some pid) :
    revealField gid pid x y s = .error .notYourTurn := by
  unfold revealField
  rw [hg]
  dsimp only
  rw [if_neg (not_not_intro hphase), if_pos hturn]

theorem revealField_err_revealed (s : GM) (gid pid : String) (x y : Nat) (g : Game)
    (row : Row) (hg : lookupA s.games gid = some g)
    (hphase : g.state.phase = "gameplay") (hturn : g.state.currentPlayer = some pid)
    (hrow : g.state.revealedFields.get? x = some row)
    (hrev : (lookupA row y).getD false = true) :
    revealField gid pid x y s = .error .alreadyRevealed := by
  unfold revealField
  rw [hg]
  dsimp only
  rw [if_neg (not_not_intro hphase), if_neg (not_not_intro hturn), hrow]
  dsimp only
  rw [if_pos hrev]

/-! ## Claim C6 — reveal flips exactly once, errors never mutate -/

/-- Claim C6.  (1) Every successful `revealField` marks the target cell
revealed.  (2) Revealing an already-revealed cell — with the match,
phase and turn checks passing — fails with `alreadyRevealed` (so a cell
can flip to revealed only once).  (3) Every error outcome of
`revealField` (unknown match, wrong phase, wrong turn, already revealed,
type error) makes the `reveal-field` command a no-op: the state is
entirely unchanged. -/
theorem reveal_once_and_errors_pure :
    (∀ s gid pid x y res s', revealField gid pid x y s = .ok (res, s') →
      ∃ g' row', lookupA s'.games gid = some g' ∧
        g'.state.revealedFields.get? x = some row' ∧ lookupA row' y = some true) ∧
    (∀ s gid pid x y g row, lookupA s.games gid = some g →
      g.state.phase = "gameplay" → g.state.currentPlayer = some pid →
      g.state.revealedFields.get? x = some row → (lookupA row y).getD false = true →
      revealField gid pid x y s = .error .alreadyRevealed) ∧
    (∀ s gid pid x y e, revealField gid pid x y s = .error e →
      revealOp gid pid x y s = s) := by
  refine ⟨?_, ?_, ?_⟩
  · intro s gid pid x y res s' hok
    cases hg : lookupA s.games gid with
    | none =>
      rw [revealField_err_notFound s gid pid x y hg] at hok
      exact Except.noConfusion hok
    | some g =>
      by_cases hphase : g.state.phase = "gameplay"
      case neg =>
        rw [revealField_err_phase s gid pid x y g hg hphase] at hok
        exact Except.noConfusion hok
      by_cases hturn : g.state.currentPlayer = some pid
      case neg =>
        rw [revealField_err_turn s gid pid x y g hg hphase hturn] at hok
        exact Except.noConfusion hok
      cases hrow : g.state.revealedFields.get? x with
      | none =>
        have htype : revealField gid pid x y s = .error .typeError := by
          unfold revealField
          rw [hg]
          dsimp only
          rw [if_neg (not_not_intro hphase), if_neg (not_not_intro hturn), hrow]
        rw [htype] at hok
        exact Except.noConfusion hok
      | some row =>
        have hx : x < g.state.revealedFields.length := by
          by_contra hxx
          rw [List.get?_eq_none.2 (le_of_not_lt hxx)] at hrow
          exact Option.noConfusion hrow
        cases hrev : (lookupA row y).getD false with
        | true =>
          rw [revealField_err_revealed s gid pid x y g row hg hphase hturn hrow hrev]
            at hok
          exact Except.noConfusion hok
        | false =>
          rw [revealField_run s gid pid x y g row hg hphase hturn hrow hrev] at hok
          cases hb : hasBombOf g pid x y with
          | true =>
            rw [if_pos (by rw [hb])] at hok
            injection hok with hpair
            injection hpair with hres hstate
            subst hstate
            refine ⟨gAfterMark g x y row, setA row y true, ?_, ?_, ?_⟩
            · exact lookupA_setA_self _ _ _
            · exact get?_set_self _ _ _ hx
            · exact lookupA_setA_self _ _ _
          | false =>
            rw [if_neg (by rw [hb]; exact Bool.false_ne_true)] at hok
            injection hok with hpair
            injection hpair with hres hstate
            subst hstate
            refine ⟨gAfterCoin g pid x y row, setA row y true, ?_, ?_, ?_⟩
            · show lookupA (startTimer gid 5 .turnExpiry (clearTimer gid _)).games gid = _
              rw [startTimer_games, clearTimer_games]
              exact lookupA_setA_self _ _ _
            · exact get?_set_self _ _ _ hx
            · exact lookupA_setA_self _ _ _
  · exact fun s gid pid x y g row hg hphase hturn hrow hrev =>
      revealField_err_revealed s gid pid x y g row hg hphase hturn hrow hrev
  · intro s gid pid x y e herr
    unfold revealOp
    rw [herr]

/-- A coin reveal: alice reveals (1,1), which bob did not mine; the turn
passes to bob. -/
def demoCoin : GM := applyOp (.reveal "g1" "alice" 1 1) demo4

/-- Witness for C6: bob re-revealing the cell (1,1) that alice already
revealed fails with `alreadyRevealed`. -/
theorem reveal_once_witness :
    revealField "g1" "bob" 1 1 demoCoin = .error .alreadyRevealed := by
  have h1 : lookupA demoCoin.games "g1" =
      some ((lookupA demoCoin.games "g1").getD (createGame "x" 0 demoData initGM).1) := by
    decide
  exact reveal_once_and_errors_pure.2.1 demoCoin "g1" "bob" 1 1 _
    [(0, false), (1, true)] h1 (by decide) (by decide) (by decide) (by decide)

/-! ## Claim C1 — reveal content and outcome -/

/-- Claim C1.  In a Gameplay match, when the current player reveals a
fresh cell (x,y): the reported content is "bomb" exactly when the
opponent's stored bomb grid marks (x,y) as mined, and "coin" otherwise;
the cell is marked revealed in either case.  On a bomb the result is
terminal with winner = the opponent and — after the `reveal-field`
handler runs `endGame` — phase "ended" and status "completed".  On a
coin the result is non-terminal, `currentPlayer` switches to the
opponent, `round` increments by one, and a fresh 5-second turn timer is
armed (a brand-new interval registered for the match). -/
theorem revealCell_content_and_outcome (s : GM) (gid pid oppId : String) (x y : Nat)
    (g : Game) (row : Row) (oppGrid : BombGrid)
    (hg : lookupA s.games gid = some g)
    (hphase : g.state.phase = "gameplay")
    (hturn : g.state.currentPlayer = some pid)
    (hrow : g.state.revealedFields.get? x = some row)
    (hnot : (lookupA row y).getD false = false)
    (hopp : oppIdOf g pid = some oppId)
    (hbg : lookupA g.bombPlacements oppId = some oppGrid) :
    (∃ res s', revealField gid pid x y s = .ok (res, s') ∧
      (res.content = "bomb" ↔ marksMine oppGrid x y) ∧
      (∃ g' row', lookupA s'.games gid = some g' ∧
        g'.state.revealedFields.get? x = some row' ∧ lookupA row' y = some true)) ∧
    (marksMine oppGrid x y →
      revealField gid pid x y s =
        .ok ({ gameEnded := true, winner := some oppId, content := "bomb" },
          bombState s gid x y g row) ∧
      (lookupA (revealOp gid pid x y s).games gid).map (fun g' => g'.state.phase) =
        some "ended" ∧
      (lookupA (revealOp gid pid x y s).games gid).map Game.status = some "completed") ∧
    (¬ marksMine oppGrid x y →
      revealField gid pid x y s =
        .ok ({ gameEnded := false, winner := none, content := "coin" },
          coinState s gid pid x y g row) ∧
      (lookupA (coinState s gid pid x y g row).games gid).map
        (fun g' => g'.state.currentPlayer) = some (some oppId) ∧
      (lookupA (coinState s gid pid x y g row).games gid).map
        (fun g' => g'.state.round) = some (g.state.round + 1) ∧
      lookupA (coinState s gid pid x y g row).timers gid = some s.nextIntervalId ∧
      lookupA (coinState s gid pid x y g row).intervals s.nextIntervalId =
        some ⟨gid, 5, .turnExpiry⟩) := by
  have hx : x < g.state.revealedFields.length := by
    by_contra hxx
    rw [List.get?_eq_none.2 (le_of_not_lt hxx)] at hrow
    exact Option.noConfusion hrow
  have hrun := revealField_run s gid pid x y g row hg hphase hturn hrow hnot
  have hiff := hasBombOf_iff g pid x y oppId oppGrid hopp hbg
  have hcoinlook : lookupA (coinState s gid pid x y g row).games gid =
      some (gAfterCoin g pid x y row) := by
    show lookupA (startTimer gid 5 .turnExpiry (clearTimer gid _)).games gid = _
    rw [startTimer_games, clearTimer_games]
    exact lookupA_setA_self _ _ _
  refine ⟨?_, ?_, ?_⟩
  · cases hb : hasBombOf g pid x y with
    | true =>
      rw [hb] at hrun
      rw [if_pos rfl] at hrun
      refine ⟨_, _, hrun, ?_, ?_⟩
      · constructor
        · exact fun _ => hiff.1 hb
        · exact fun _ => rfl
      · refine ⟨gAfterMark g x y row, setA row y true, ?_, ?_, ?_⟩
        · exact lookupA_setA_self _ _ _
        · exact get?_set_self _ _ _ hx
        · exact lookupA_setA_self _ _ _
    | false =>
      rw [hb] at hrun
      rw [if_neg Bool.false_ne_true] at hrun
      refine ⟨_, _, hrun, ?_, ?_⟩
      · constructor
        · intro hcb
          exact absurd hcb (by decide)
        · intro hm
          exact absurd (hiff.2 hm) (by rw [hb]; exact Bool.false_ne_true)
      · refine ⟨gAfterCoin g pid x y row, setA row y true, hcoinlook, ?_, ?_⟩
        · exact get?_set_self _ _ _ hx
        · exact lookupA_setA_self _ _ _
  · intro hm
    have hb : hasBombOf g pid x y = true := hiff.2 hm
    rw [hb] at hrun
    rw [if_pos rfl] at hrun
    rw [hopp] at hrun
    have hbomblook : lookupA (bombState s gid x y g row).games gid =
        some (gAfterMark g x y row) := lookupA_setA_self _ _ _
    have hop : revealOp gid pid x y s = endGame gid (bombState s gid x y g row) := by
      unfold revealOp
      rw [hrun]
      rfl
    have hend := endGame_eq (bombState s gid x y g row) gid (gAfterMark g x y row) hbomblook
    have hlookend : lookupA (revealOp gid pid x y s).games gid =
        some (endedGame (gAfterMark g x y row)) := by
      rw [hop, hend]
      show lookupA (setA (bombState s gid x y g row).games gid
        (endedGame (gAfterMark g x y row))) gid = _
      exact lookupA_setA_self _ _ _
    refine ⟨hrun, ?_, ?_⟩
    · rw [hlookend]; rfl
    · rw [hlookend]; rfl
  · intro hm
    have hb : hasBombOf g pid x y = false := by
      cases hbv : hasBombOf g pid x y with
      | true => exact absurd (hiff.1 hbv) hm
      | false => rfl
    rw [hb] at hrun
    rw [if_neg Bool.false_ne_true] at hrun
    refine ⟨hrun, ?_, ?_, ?_, ?_⟩
    · rw [hcoinlook]
      show some (oppIdOf g pid) = _
      rw [hopp]
    · rw [hcoinlook]
      rfl
    · show lookupA (startTimer gid 5 .turnExpiry (clearTimer gid _)).timers gid = _
      rw [startTimer_lookup_timers_self, clearTimer_nextIntervalId]
    · have h1 := startTimer_lookup_intervals_new gid 5 .turnExpiry (clearTimer gid
        { s with games := setA (setA s.games gid (gAfterMark g x y row)) gid (gAfterCoin g pid x y row) })
      rw [clearTimer_nextIntervalId] at h1
      exact h1

/-- Witness for C1: alice reveals bob's mined cell (0,0) in the
demonstration match; after the handler's `endGame` the match phase is
"ended". -/
theorem revealCell_content_and_outcome_witness :
    (lookupA (revealOp "g1" "alice" 0 0 demo4).games "g1").map
      (fun g' => g'.state.phase) = some "ended" := by
  have h1 : lookupA demo4.games "g1" =
      some ((lookupA demo4.games "g1").getD (createGame "x" 0 demoData initGM).1) := by
    decide
  exact ((revealCell_content_and_outcome demo4 "g1" "alice" "bob" 0 0 _
    [(0, false), (1, false)] [[1, 0], [0, 0]] h1 (by decide) (by decide) (by decide)
    (by decide) (by decide) (by decide)).2.1 ⟨[1, 0], rfl, rfl⟩).2.1

/-! ## Claim C10 — no bounds check: off-grid reveals succeed as coins -/

theorem lookupA_eq_none_of_keys {β : Type} (l : List (Nat × β)) (y : Nat)
    (h : ∀ e ∈ l, e.1 ≠ y) : lookupA l y = none := by
  induction l with
  | nil => rfl
  | cons e rest ih =>
    have he : ¬ (e.1 = y) := h e (List.mem_cons_self _ _)
    simp only [lookupA, if_neg he]
    exact ih (fun f hf => h f (List.mem_cons_of_mem _ hf))

/-- Claim C10.  `revealField` never bounds-checks its coordinates.  For a
Gameplay match whose revealed grid has its rows indexed below the grid
size (`hkeys`), a reveal by the current player at an in-range column `x`
but off-grid row index `y` (at or beyond the grid size, hence beyond the
opponent's grid rows, `hgrows`) succeeds instead of erroring: the content
is "coin" (never "bomb", since `opponentBombs[x][y]` is `undefined`), the
off-grid position is recorded as revealed (the JS array grows), and the
turn switches to the opponent. -/
theorem reveal_off_grid_coin (s : GM) (gid pid oppId : String) (x y : Nat)
    (g : Game) (row : Row) (oppGrid : BombGrid)
    (hg : lookupA s.games gid = some g)
    (hphase : g.state.phase = "gameplay")
    (hturn : g.state.currentPlayer = some pid)
    (hrow : g.state.revealedFields.get? x = some row)
    (hkeys : ∀ e ∈ row, e.1 < g.state.revealedFields.length)
    (hy : g.state.revealedFields.length ≤ y)
    (hopp : oppIdOf g pid = some oppId)
    (hbg : lookupA g.bombPlacements oppId = some oppGrid)
    (hgrows : ∀ br ∈ oppGrid, br.length ≤ y) :
    revealField gid pid x y s =
      .ok ({ gameEnded := false, winner := none, content := "coin" },
        coinState s gid pid x y g row) ∧
    (∃ g' row', lookupA (coinState s gid pid x y g row).games gid = some g' ∧
      g'.state.revealedFields.get? x = some row' ∧ lookupA row' y = some true) ∧
    (lookupA (coinState s gid pid x y g row).games gid).map
      (fun g' => g'.state.currentPlayer) = some (some oppId) := by
  have hx : x < g.state.revealedFields.length := by
    by_contra hxx
    rw [List.get?_eq_none.2 (le_of_not_lt hxx)] at hrow
    exact Option.noConfusion hrow
  have hnone : lookupA row y = none :=
    lookupA_eq_none_of_keys row y
      (fun e he => Nat.ne_of_lt (lt_of_lt_of_le (hkeys e he) hy))
  have hnot : (lookupA row y).getD false = false := by rw [hnone]; rfl
  have hhb : hasBombOf g pid x y = false := by
    unfold hasBombOf
    rw [hopp]
    dsimp only
    rw [hbg]
    dsimp only
    cases hgx : List.get? oppGrid x with
    | none => rfl
    | some br =>
      have hbry : br.get? y = none := List.get?_eq_none.2 (hgrows br (List.get?_mem hgx))
      show decide (br.get? y = some 1) = false
      rw [hbry]
      rfl
  have hrun := revealField_run s gid pid x y g row hg hphase hturn hrow hnot
  rw [hhb, if_neg Bool.false_ne_true] at hrun
  have hcoinlook : lookupA (coinState s gid pid x y g row).games gid =
      some (gAfterCoin g pid x y row) := by
    show lookupA (startTimer gid 5 .turnExpiry (clearTimer gid _)).games gid = _
    rw [startTimer_games, clearTimer_games]
    exact lookupA_setA_self _ _ _
  refine ⟨hrun, ?_, ?_⟩
  · refine ⟨gAfterCoin g pid x y row, setA row y true, hcoinlook, ?_, ?_⟩
    · exact get?_set_self _ _ _ hx
    · exact lookupA_setA_self _ _ _
  · rw [hcoinlook]
    show some (oppIdOf g pid) = _
    rw [hopp]

/-- Witness for C10 on the demonstration match: alice reveals (0,2) on
the 2-by-2 grid — column 0 is in range, row index 2 is off-grid — and
the call succeeds with content "coin". -/
theorem reveal_off_grid_coin_witness :
    revealField "g1" "alice" 0 2 demo4 =
      .ok ({ gameEnded := false, winner := none, content := "coin" },
        coinState demo4 "g1" "alice" 0 2
          ((lookupA demo4.games "g1").getD (createGame "x" 0 demoData initGM).1)
          [(0, false), (1, false)]) := by
  have h1 : lookupA demo4.games "g1" =
      some ((lookupA demo4.games "g1").getD (createGame "x" 0 demoData initGM).1) := by
    decide
  exact (reveal_off_grid_coin demo4 "g1" "alice" "bob" 0 2 _
    [(0, false), (1, false)] [[1, 0], [0, 0]] h1 (by decide) (by decide) (by decide)
    (by decide) (by decide) (by decide) (by decide) (by decide)).1

/-! ## Generic helpers for the timer-service and monotonicity invariants -/

/-- Key uniqueness of an association list (JS `Map`s and objects have
unique keys). -/
def NodupKeys {κ β : Type} (l : List (κ × β)) : Prop := (l.map Prod.fst).Nodup

theorem removeA_sublist {κ β : Type} [DecidableEq κ] (l : List (κ × β)) (k : κ) :
    (removeA l k).Sublist l := by
  induction l with
  | nil => exact List.Sublist.refl _
  | cons e rest ih =>
    by_cases he : e.1 = k
    · rw [removeA, if_pos he]
      exact ih.cons e
    · rw [removeA, if_neg he]
      exact ih.cons₂ e

theorem nodupKeys_removeA {κ β : Type} [DecidableEq κ] {l : List (κ × β)} (k : κ)
    (h : NodupKeys l) : NodupKeys (removeA l k) :=
  List.Nodup.sublist (List.Sublist.map Prod.fst (removeA_sublist l k)) h

theorem nodupKeys_setA {κ β : Type} [DecidableEq κ] {l : List (κ × β)} (k : κ) (v : β)
    (h : NodupKeys l) : NodupKeys (setA l k v) := by
  unfold NodupKeys setA
  rw [List.map_append]
  refine List.Nodup.append (nodupKeys_removeA k h) (List.nodup_singleton k) ?_
  intro a ha hb
  rcases List.mem_map.1 ha with ⟨e, he, hek⟩
  rw [List.mem_singleton.1 hb] at hek
  exact (mem_removeA.1 he).2 hek

theorem eq_of_mem_nodupKeys {κ β : Type} {l : List (κ × β)} {e1 e2 : κ × β}
    (h : NodupKeys l) (h1 : e1 ∈ l) (h2 : e2 ∈ l) (hk : e1.1 = e2.1) : e1 = e2 := by
  induction l with
  | nil => exact absurd h1 (List.not_mem_nil _)
  | cons f rest ih =>
    have hf : (f.1 ∉ rest.map Prod.fst) ∧ NodupKeys rest := by
      unfold NodupKeys at h
      rw [List.map_cons, List.nodup_cons] at h
      exact h
    rcases List.mem_cons.1 h1 with he1 | he1 <;> rcases List.mem_cons.1 h2 with he2 | he2
    · rw [he1, he2]
    · exact absurd (List.mem_map.2 ⟨e2, he2, (hk.symm.trans (congrArg Prod.fst he1))⟩)
        hf.1
    · exact absurd (List.mem_map.2 ⟨e1, he1, (hk.trans (congrArg Prod.fst he2))⟩)
        hf.1
    · exact ih hf.2 he1 he2

theorem lookupA_removeA_none {κ β : Type} [DecidableEq κ] {l : List (κ × β)} {i : κ}
    (k : κ) (h : lookupA l i = none) : lookupA (removeA l k) i = none := by
  by_cases hik : i = k
  · rw [hik]
    exact lookupA_removeA_self l k
  · rw [lookupA_removeA_ne l k i hik]
    exact h

theorem foldl_preserves {α : Type} {P : GM → Prop} (f : GM → α → GM)
    (hf : ∀ t a, P t → P (f t a)) (l : List α) (s : GM) (h : P s) :
    P (l.foldl f s) := by
  induction l generalizing s with
  | nil => exact h
  | cons a rest ih => exact ih (f s a) (hf s a h)

/-! ## Further component lemmas -/

theorem startTimer_lookup_timers_ne (gid gid' : String) (secs : Int) (cb : TimerCb)
    (s : GM) (h : gid' ≠ gid) :
    lookupA (startTimer gid secs cb s).timers gid' = lookupA s.timers gid' := by
  unfold startTimer
  show lookupA (setA (clearTimer gid s).timers gid (clearTimer gid s).nextIntervalId) gid' = _
  rw [lookupA_setA_ne _ _ _ _ h, clearTimer_lookup_timers_ne gid gid' s h]

theorem handleRoundTimeout_state (gid : String) (s : GM) :
    (handleRoundTimeout gid s).2 = s := by
  unfold handleRoundTimeout
  cases lookupA s.games gid <;> rfl

theorem autoPlaceBombs_timers (gid : String) (rand : List Nat) (s : GM) :
    (autoPlaceBombs gid rand s).timers = s.timers := by
  unfold autoPlaceBombs
  cases lookupA s.games gid <;> rfl

theorem autoPlaceBombs_intervals (gid : String) (rand : List Nat) (s : GM) :
    (autoPlaceBombs gid rand s).intervals = s.intervals := by
  unfold autoPlaceBombs
  cases lookupA s.games gid <;> rfl

theorem autoPlaceBombs_nextIntervalId (gid : String) (rand : List Nat) (s : GM) :
    (autoPlaceBombs gid rand s).nextIntervalId = s.nextIntervalId := by
  unfold autoPlaceBombs
  cases lookupA s.games gid <;> rfl

theorem autoPlaceBombs_fired (gid : String) (rand : List Nat) (s : GM) :
    (autoPlaceBombs gid rand s).fired = s.fired := by
  unfold autoPlaceBombs
  cases lookupA s.games gid <;> rfl

theorem startGameplayPhase_fired (gid : String) (s : GM) :
    (startGameplayPhase gid s).fired = s.fired := by
  unfold startGameplayPhase
  cases lookupA s.games gid with
  | none => rfl
  | some g => rw [startTimer_fired]

theorem startTimer_nextIntervalId (gid : String) (secs : Int) (cb : TimerCb) (s : GM) :
    (startTimer gid secs cb s).nextIntervalId = s.nextIntervalId + 1 := by
  unfold startTimer
  show (clearTimer gid s).nextIntervalId + 1 = _
  rw [clearTimer_nextIntervalId]

/-! ## Claim C5 — TimerService invariant -/

/-- Every live interval is the one registered for its match in the
`timers` map. -/
def CoherenceP (s : GM) : Prop :=
  ∀ e ∈ s.intervals, lookupA s.timers e.2.gameId = some e.1

/-- Every `timers` entry points at a live interval serving that match. -/
def MapSoundP (s : GM) : Prop :=
  ∀ e ∈ s.timers, ∃ rec, lookupA s.intervals e.2 = some rec ∧ rec.gameId = e.1

/-- All live interval ids are below the allocation counter. -/
def IdBoundP (s : GM) : Prop :=
  ∀ e ∈ s.intervals, e.1 < s.nextIntervalId

/-- The timer-service invariant: the two maps are mutually coherent,
ids are fresh-allocatable, and both maps have unique keys. -/
def TInv (s : GM) : Prop :=
  CoherenceP s ∧ MapSoundP s ∧ IdBoundP s ∧ NodupKeys s.intervals ∧ NodupKeys s.timers

instance (s : GM) : Decidable (TInv s) := by
  unfold TInv CoherenceP MapSoundP IdBoundP NodupKeys
  infer_instance

theorem TInv_congr (s s' : GM) (ht : s'.timers = s.timers)
    (hi : s'.intervals = s.intervals) (hn : s'.nextIntervalId = s.nextIntervalId)
    (h : TInv s) : TInv s' := by
  unfold TInv CoherenceP MapSoundP IdBoundP at *
  rw [ht, hi, hn]
  exact h

theorem TInv_clearTimer (gid : String) (s : GM) (h : TInv s) : TInv (clearTimer gid s) := by
  obtain ⟨hc, hm, hb, hni, hnt⟩ := h
  unfold clearTimer
  cases hl : lookupA s.timers gid with
  | none => exact ⟨hc, hm, hb, hni, hnt⟩
  | some iid =>
    refine ⟨?_, ?_, ?_, nodupKeys_removeA iid hni, nodupKeys_removeA gid hnt⟩
    · intro e he
      obtain ⟨hesrc, hene⟩ := mem_removeA.1 he
      have hold := hc e hesrc
      have hgne : e.2.gameId ≠ gid := by
        intro hgg
        rw [hgg, hl] at hold
        exact hene (Option.some.inj hold).symm
      show lookupA (removeA s.timers gid) e.2.gameId = some e.1
      rw [lookupA_removeA_ne _ _ _ hgne]
      exact hold
    · intro e he
      obtain ⟨hesrc, hene⟩ := mem_removeA.1 he
      obtain ⟨rec, hrec, hrgid⟩ := hm e hesrc
      obtain ⟨rec', hrec', hrgid'⟩ := hm (gid, iid) (mem_of_lookupA hl)
      have hine : e.2 ≠ iid := by
        intro hii
        rw [hii] at hrec
        have heq : rec' = rec := Option.some.inj (hrec'.symm.trans hrec)
        apply hene
        calc e.1 = rec.gameId := hrgid.symm
          _ = rec'.gameId := by rw [heq]
          _ = gid := hrgid'
      refine ⟨rec, ?_, hrgid⟩
      show lookupA (removeA s.intervals iid) e.2 = some rec
      rw [lookupA_removeA_ne _ _ _ hine]
      exact hrec
    · intro e he
      exact hb e (mem_removeA.1 he).1

theorem clearTimer_timers_eq_or (gid : String) (s : GM) :
    (clearTimer gid s).timers = s.timers ∨
    (clearTimer gid s).timers = removeA s.timers gid := by
  unfold clearTimer
  cases lookupA s.timers gid with
  | none => exact Or.inl rfl
  | some iid => exact Or.inr rfl

theorem TInv_startTimer (gid : String) (secs : Int) (cb : TimerCb) (s : GM)
    (h : TInv s) : TInv (startTimer gid secs cb s) := by
  have ht := TInv_clearTimer gid s h
  obtain ⟨hc, hm, hb, hni, hnt⟩ := ht
  have hnone : lookupA (clearTimer gid s).timers gid = none :=
    clearTimer_lookup_timers_self gid s
  unfold startTimer
  refine ⟨?_, ?_, ?_, nodupKeys_setA _ _ hni, nodupKeys_setA _ _ hnt⟩
  · intro e he
    rcases mem_setA.1 he with ⟨hesrc, hene⟩ | hnew
    · have hold := hc e hesrc
      have hgne : e.2.gameId ≠ gid := by
        intro hgg
        rw [hgg, hnone] at hold
        exact Option.noConfusion hold
      show lookupA (setA (clearTimer gid s).timers gid _) e.2.gameId = some e.1
      rw [lookupA_setA_ne _ _ _ _ hgne]
      exact hold
    · rw [hnew]
      show lookupA (setA (clearTimer gid s).timers gid _) gid = _
      rw [lookupA_setA_self]
  · intro e he
    rcases mem_setA.1 he with ⟨hesrc, hene⟩ | hnew
    · obtain ⟨rec, hrec, hrgid⟩ := hm e hesrc
      have hine : e.2 ≠ (clearTimer gid s).nextIntervalId := by
        intro hii
        have := hb (e.2, rec) (mem_of_lookupA hrec)
        rw [hii] at this
        exact absurd this (lt_irrefl _)
      refine ⟨rec, ?_, hrgid⟩
      show lookupA (setA (clearTimer gid s).intervals _ _) e.2 = some rec
      rw [lookupA_setA_ne _ _ _ _ hine]
      exact hrec
    · rw [hnew]
      refine ⟨⟨gid, secs, cb⟩, ?_, rfl⟩
      show lookupA (setA (clearTimer gid s).intervals _ _) _ = _
      rw [lookupA_setA_self]
  · intro e he
    rcases mem_setA.1 he with ⟨hesrc, hene⟩ | hnew
    · exact Nat.lt_succ_of_lt (hb e hesrc)
    · rw [hnew]
      exact Nat.lt_succ_self _

theorem TInv_intervalUpdate (s : GM) (iid : Nat) (rec rec' : IntervalRec)
    (hrec : lookupA s.intervals iid = some rec) (hgid : rec'.gameId = rec.gameId)
    (h : TInv s) : TInv { s with intervals := setA s.intervals iid rec' } := by
  obtain ⟨hc, hm, hb, hni, hnt⟩ := h
  refine ⟨?_, ?_, ?_, nodupKeys_setA _ _ hni, hnt⟩
  · intro e he
    rcases mem_setA.1 he with ⟨hesrc, hene⟩ | hnew
    · exact hc e hesrc
    · rw [hnew]
      show lookupA s.timers rec'.gameId = some iid
      rw [hgid]
      exact hc (iid, rec) (mem_of_lookupA hrec)
  · intro e he
    obtain ⟨rec₂, hrec₂, hrgid₂⟩ := hm e he
    by_cases hei : e.2 = iid
    · refine ⟨rec', ?_, ?_⟩
      · show lookupA (setA s.intervals iid rec') e.2 = some rec'
        rw [hei, lookupA_setA_self]
      · rw [hei] at hrec₂
        have hq : rec₂ = rec := Option.some.inj (hrec₂.symm.trans hrec)
        rw [hgid, ← hq]
        exact hrgid₂
    · refine ⟨rec₂, ?_, hrgid₂⟩
      show lookupA (setA s.intervals iid rec') e.2 = some rec₂
      rw [lookupA_setA_ne _ _ _ _ hei]
      exact hrec₂
  · intro e he
    rcases mem_setA.1 he with ⟨hesrc, hene⟩ | hnew
    · exact hb e hesrc
    · rw [hnew]
      exact hb (iid, rec) (mem_of_lookupA hrec)

theorem TInv_createOp (gid : String) (now : Nat) (d : GameData) (s : GM)
    (h : TInv s) : TInv (createOp gid now d s) :=
  TInv_congr s _ rfl rfl rfl h

theorem TInv_startGame (gid : String) (s : GM) (h : TInv s) : TInv (startGame gid s) := by
  unfold startGame
  cases lookupA s.games gid with
  | none => exact h
  | some g => exact TInv_startTimer gid 10 .placementExpiry s h

theorem TInv_autoPlaceBombs (gid : String) (rand : List Nat) (s : GM) (h : TInv s) :
    TInv (autoPlaceBombs gid rand s) :=
  TInv_congr s _ (autoPlaceBombs_timers gid rand s) (autoPlaceBombs_intervals gid rand s)
    (autoPlaceBombs_nextIntervalId gid rand s) h

theorem TInv_startGameplayPhase (gid : String) (s : GM) (h : TInv s) :
    TInv (startGameplayPhase gid s) := by
  unfold startGameplayPhase
  cases lookupA s.games gid with
  | none => exact h
  | some g => exact TInv_startTimer gid 5 .turnExpiry _ (TInv_congr s _ rfl rfl rfl h)

theorem TInv_confirmBombPlacement (gid pid : String) (bombs : BombGrid) (s : GM)
    (h : TInv s) : TInv (confirmBombPlacement gid pid bombs s) := by
  unfold confirmBombPlacement
  cases lookupA s.games gid with
  | none => exact h
  | some g =>
    dsimp only
    by_cases h2 : (setA g.bombPlacements pid bombs).length = 2
    · rw [if_pos h2]
      exact TInv_startGameplayPhase gid _ (TInv_clearTimer gid _
        (TInv_congr _ _ rfl rfl rfl (TInv_congr s _ rfl rfl rfl h)))
    · rw [if_neg h2]
      exact TInv_congr s _ rfl rfl rfl h

theorem TInv_confirmOp (gid pid : String) (bombs : BombGrid) (s : GM)
    (h : TInv s) : TInv (confirmOp gid pid bombs s) := by
  unfold confirmOp
  dsimp only
  have h1 := TInv_confirmBombPlacement gid pid bombs s h
  cases hg2 : lookupA (confirmBombPlacement gid pid bombs s).games gid with
  | none => exact h1
  | some g =>
    dsimp only
    split
    · exact TInv_startGameplayPhase gid _ h1
    · exact h1

theorem TInv_joinOp (gid pid : String) (bet : Int) (s : GM) (h : TInv s) :
    TInv (joinOp gid pid bet s) := by
  unfold joinOp joinGame
  cases hg : lookupA s.games gid with
  | none => exact h
  | some g =>
    dsimp only
    split
    · exact h
    split
    · exact h
    split
    · exact h
    split
    · exact h
    split
    · exact h
    exact TInv_startGame gid _ (TInv_congr s _ rfl rfl rfl h)

theorem TInv_endGame (gid : String) (s : GM) (h : TInv s) : TInv (endGame gid s) := by
  unfold endGame
  cases lookupA s.games gid with
  | none => exact h
  | some g =>
    exact TInv_congr _ _ rfl rfl rfl (TInv_clearTimer gid _ (TInv_congr s _ rfl rfl rfl h))

theorem TInv_exitGame (gid pid : String) (s : GM) (h : TInv s) : TInv (exitGame gid pid s) := by
  unfold exitGame
  cases lookupA s.games gid with
  | none => exact h
  | some g =>
    dsimp only
    split
    · exact TInv_endGame gid s h
    split
    · exact TInv_endGame gid s h
    exact h

theorem TInv_handlePlayerDisconnect (pid : String) (s : GM) (h : TInv s) :
    TInv (handlePlayerDisconnect pid s) := by
  unfold handlePlayerDisconnect
  refine foldl_preserves _ ?_ _ s h
  intro t gid ht
  cases lookupA t.games gid with
  | none => exact ht
  | some g =>
    dsimp only
    split
    · exact TInv_exitGame gid pid t ht
    · exact ht

theorem TInv_cleanupOldGames (now : Nat) (s : GM) (h : TInv s) :
    TInv (cleanupOldGames now s) := by
  unfold cleanupOldGames
  refine foldl_preserves _ ?_ _ s h
  intro t gid ht
  cases lookupA t.games gid with
  | none => exact ht
  | some g =>
    dsimp only
    split
    · exact TInv_endGame gid t ht
    · exact ht

theorem TInv_removalFire (gid : String) (s : GM) (h : TInv s) : TInv (removalFire gid s) := by
  unfold removalFire
  split
  · exact TInv_congr s _ rfl rfl rfl h
  · exact h

theorem TInv_runCb (cb : TimerCb) (gid : String) (rand : List Nat) (s : GM) (h : TInv s) :
    TInv (runCb cb gid rand s) := by
  unfold runCb
  cases cb with
  | placementExpiry =>
    exact TInv_startGameplayPhase gid _
      (TInv_autoPlaceBombs gid rand _ (TInv_congr s _ rfl rfl rfl h))
  | turnExpiry =>
    dsimp only
    rw [handleRoundTimeout_state]
    exact TInv_congr s _ rfl rfl rfl h

theorem TInv_tick (iid : Nat) (rand : List Nat) (s : GM) (h : TInv s) :
    TInv (tick iid rand s) := by
  unfold tick
  cases hrec : lookupA s.intervals iid with
  | none => exact h
  | some rec =>
    dsimp only
    cases hgame : lookupA s.games rec.gameId with
    | none => exact TInv_clearTimer rec.gameId s h
    | some g =>
      dsimp only
      split
      · exact TInv_runCb rec.cb rec.gameId rand _ (TInv_clearTimer rec.gameId _
          (TInv_congr _ _ rfl rfl rfl (TInv_intervalUpdate s iid rec
            { rec with timeLeft := rec.timeLeft - 1 } hrec rfl h)))
      · exact TInv_congr _ _ rfl rfl rfl (TInv_intervalUpdate s iid rec
          { rec with timeLeft := rec.timeLeft - 1 } hrec rfl h)

theorem TInv_applyOp (op : Op) (s : GM) (h : TInv s) : TInv (applyOp op s) := by
  cases op with
  | create gid now d => exact TInv_createOp gid now d s h
  | join gid pid bet => exact TInv_joinOp gid pid bet s h
  | confirm gid pid bombs => exact TInv_confirmOp gid pid bombs s h
  | reveal gid pid x y =>
    show TInv (revealOp gid pid x y s)
    unfold revealOp
    cases hr : revealField gid pid x y s with
    | error e => exact h
    | ok p =>
      obtain ⟨res, s'⟩ := p
      have hs' : TInv s' := by
        cases hg : lookupA s.games gid with
        | none =>
          rw [revealField_err_notFound s gid pid x y hg] at hr
          exact Except.noConfusion hr
        | some g =>
          by_cases hphase : g.state.phase = "gameplay"
          case neg =>
            rw [revealField_err_phase s gid pid x y g hg hphase] at hr
            exact Except.noConfusion hr
          by_cases hturn : g.state.currentPlayer = some pid
          case neg =>
            rw [revealField_err_turn s gid pid x y g hg hphase hturn] at hr
            exact Except.noConfusion hr
          cases hrow : g.state.revealedFields.get? x with
          | none =>
            have htype : revealField gid pid x y s = .error .typeError := by
              unfold revealField
              rw [hg]
              dsimp only
              rw [if_neg (not_not_intro hphase), if_neg (not_not_intro hturn), hrow]
            rw [htype] at hr
            exact Except.noConfusion hr
          | some row =>
            cases hrev : (lookupA row y).getD false with
            | true =>
              rw [revealField_err_revealed s gid pid x y g row hg hphase hturn hrow hrev]
                at hr
              exact Except.noConfusion hr
            | false =>
              rw [revealField_run s gid pid x y g row hg hphase hturn hrow hrev] at hr
              cases hb : hasBombOf g pid x y with
              | true =>
                rw [hb, if_pos rfl] at hr
                injection hr with hpair
                injection hpair with hres hstate
                rw [← hstate]
                exact TInv_congr s _ rfl rfl rfl h
              | false =>
                rw [hb, if_neg Bool.false_ne_true] at hr
                injection hr with hpair
                injection hpair with hres hstate
                rw [← hstate]
                exact TInv_startTimer _ _ _ _ (TInv_clearTimer _ _
                  (TInv_congr s _ rfl rfl rfl h))
      dsimp only
      split
      · exact TInv_endGame gid s' hs'
      · exact hs'
  | timerTick iid rand => exact TInv_tick iid rand s h
  | exit gid pid => exact TInv_exitGame gid pid s h
  | disconnect pid => exact TInv_handlePlayerDisconnect pid s h
  | endMatch gid => exact TInv_endGame gid s h
  | cleanup now => exact TInv_cleanupOldGames now s h
  | removal gid => exact TInv_removalFire gid s h

theorem TInv_unique (s : GM) (hT : TInv s) (e1 e2 : Nat × IntervalRec)
    (h1 : e1 ∈ s.intervals) (h2 : e2 ∈ s.intervals)
    (hgid : e1.2.gameId = e2.2.gameId) : e1 = e2 := by
  have hc1 := hT.1 e1 h1
  have hc2 := hT.1 e2 h2
  rw [hgid] at hc1
  exact eq_of_mem_nodupKeys hT.2.2.2.1 h1 h2 (Option.some.inj (hc1.symm.trans hc2))

theorem clearTimer_intervals_lookup_none (gid : String) (t : GM) (iid : Nat)
    (h : lookupA t.intervals iid = none) :
    lookupA (clearTimer gid t).intervals iid = none := by
  unfold clearTimer
  cases lookupA t.timers gid with
  | none => exact h
  | some j => exact lookupA_removeA_none j h

theorem startTimer_intervals_lookup_none (gid : String) (secs : Int) (cb : TimerCb)
    (t : GM) (iid : Nat) (hlt : iid < t.nextIntervalId)
    (hnone : lookupA t.intervals iid = none) :
    lookupA (startTimer gid secs cb t).intervals iid = none := by
  unfold startTimer
  show lookupA (setA (clearTimer gid t).intervals (clearTimer gid t).nextIntervalId
    ⟨gid, secs, cb⟩) iid = none
  have hne : iid ≠ (clearTimer gid t).nextIntervalId := by
    rw [clearTimer_nextIntervalId]
    exact Nat.ne_of_lt hlt
  rw [lookupA_setA_ne _ _ _ _ hne]
  exact clearTimer_intervals_lookup_none gid t iid hnone

theorem startGameplayPhase_intervals_lookup_none (gid : String) (t : GM) (iid : Nat)
    (hlt : iid < t.nextIntervalId) (hnone : lookupA t.intervals iid = none) :
    lookupA (startGameplayPhase gid t).intervals iid = none := by
  unfold startGameplayPhase
  cases lookupA t.games gid with
  | none => exact hnone
  | some g =>
    dsimp only
    exact startTimer_intervals_lookup_none gid 5 .turnExpiry _ iid hlt hnone

theorem runCb_fired (cb : TimerCb) (gid : String) (rand : List Nat) (t : GM) :
    (runCb cb gid rand t).fired = t.fired ++ [(gid, cb)] := by
  unfold runCb
  cases cb with
  | placementExpiry =>
    show (startGameplayPhase gid (autoPlaceBombs gid rand _)).fired = _
    rw [startGameplayPhase_fired, autoPlaceBombs_fired]
  | turnExpiry =>
    show ((handleRoundTimeout gid _).2).fired = _
    rw [handleRoundTimeout_state]

theorem runCb_intervals_lookup_none (cb : TimerCb) (gid : String) (rand : List Nat)
    (t : GM) (iid : Nat) (hlt : iid < t.nextIntervalId)
    (hnone : lookupA t.intervals iid = none) :
    lookupA (runCb cb gid rand t).intervals iid = none := by
  unfold runCb
  cases cb with
  | placementExpiry =>
    dsimp only
    refine startGameplayPhase_intervals_lookup_none gid _ iid ?_ ?_
    · rw [autoPlaceBombs_nextIntervalId]
      exact hlt
    · rw [autoPlaceBombs_intervals]
      exact hnone
  | turnExpiry =>
    dsimp only
    rw [handleRoundTimeout_state]
    exact hnone

theorem tick_dead (iid : Nat) (rand : List Nat) (T : GM)
    (h : lookupA T.intervals iid = none) : tick iid rand T = T := by
  unfold tick
  rw [h]

/-- The state `tick` builds just before checking for expiry: the interval's
countdown decremented and mirrored into the match. -/
def tickMidState (s : GM) (iid : Nat) (rec : IntervalRec) (g : Game) : GM :=
  { s with
    intervals := setA s.intervals iid { rec with timeLeft := rec.timeLeft - 1 },
    games := setA s.games rec.gameId
      { g with state := { g.state with timeLeft := rec.timeLeft - 1 } } }

theorem tick_expiry_once (s : GM) (iid : Nat) (rec : IntervalRec) (g : Game)
    (rand : List Nat) (hT : TInv s)
    (hrec : lookupA s.intervals iid = some rec)
    (hgame : lookupA s.games rec.gameId = some g)
    (ht : rec.timeLeft = 1) :
    (tick iid rand s).fired = s.fired ++ [(rec.gameId, rec.cb)] ∧
    lookupA (tick iid rand s).intervals iid = none ∧
    (∀ rand', tick iid rand' (tick iid rand s) = tick iid rand s) := by
  have hcoh : lookupA s.timers rec.gameId = some iid := hT.1 (iid, rec) (mem_of_lookupA hrec)
  have hbound : iid < s.nextIntervalId := hT.2.2.1 (iid, rec) (mem_of_lookupA hrec)
  have hrun : tick iid rand s =
      runCb rec.cb rec.gameId rand (clearTimer rec.gameId (tickMidState s iid rec g)) := by
    unfold tick
    rw [hrec]
    dsimp only
    rw [hgame]
    dsimp only
    rw [if_pos (show rec.timeLeft - 1 ≤ 0 by rw [ht]; decide)]
    rfl
  have hclr : lookupA (clearTimer rec.gameId (tickMidState s iid rec g)).intervals iid =
      none := by
    unfold clearTimer
    rw [show lookupA (tickMidState s iid rec g).timers rec.gameId = some iid from hcoh]
    have : lookupA (setA s.intervals iid { rec with timeLeft := rec.timeLeft - 1 }) iid =
        some { rec with timeLeft := rec.timeLeft - 1 } := lookupA_setA_self _ _ _
    show lookupA (removeA (tickMidState s iid rec g).intervals iid) iid = none
    exact lookupA_removeA_self _ _
  have hdead : lookupA (tick iid rand s).intervals iid = none := by
    rw [hrun]
    refine runCb_intervals_lookup_none rec.cb rec.gameId rand _ iid ?_ hclr
    rw [clearTimer_nextIntervalId]
    exact hbound
  refine ⟨?_, hdead, ?_⟩
  · rw [hrun, runCb_fired, clearTimer_fired]
    rfl
  · exact fun rand' => tick_dead iid rand' _ hdead

theorem tick_missing_match (s : GM) (iid : Nat) (rec : IntervalRec) (rand : List Nat)
    (hT : TInv s) (hrec : lookupA s.intervals iid = some rec)
    (hnog : lookupA s.games rec.gameId = none) :
    tick iid rand s = clearTimer rec.gameId s ∧
    (tick iid rand s).fired = s.fired ∧
    lookupA (tick iid rand s).intervals iid = none := by
  have hcoh : lookupA s.timers rec.gameId = some iid := hT.1 (iid, rec) (mem_of_lookupA hrec)
  have heq : tick iid rand s = clearTimer rec.gameId s := by
    unfold tick
    rw [hrec]
    dsimp only
    rw [hnog]
  refine ⟨heq, ?_, ?_⟩
  · rw [heq, clearTimer_fired]
  · rw [heq]
    unfold clearTimer
    rw [hcoh]
    show lookupA (removeA s.intervals iid) iid = none
    exact lookupA_removeA_self _ _

/-- Claim C5.  (a) The timer-service invariant holds initially and is
preserved by every operation; (b) under it, at most one live interval
exists per match id (any two live intervals serving the same match are
the same interval); (c) when a countdown reaches zero while its match is
registered, the expiry callback runs exactly once — the ghost log gains
exactly one entry, the interval auto-clears, and a further firing of the
same interval id is a no-op; (d) a tick whose target match has been
removed from the registry self-cancels (it is exactly `clearTimer`),
without invoking the callback. -/
theorem timer_service_guarantees :
    TInv initGM ∧
    (∀ op s, TInv s → TInv (applyOp op s)) ∧
    (∀ s e1 e2, TInv s → e1 ∈ s.intervals → e2 ∈ s.intervals →
      e1.2.gameId = e2.2.gameId → e1 = e2) ∧
    (∀ s iid rec g rand, TInv s → lookupA s.intervals iid = some rec →
      lookupA s.games rec.gameId = some g → rec.timeLeft = 1 →
      (tick iid rand s).fired = s.fired ++ [(rec.gameId, rec.cb)] ∧
      lookupA (tick iid rand s).intervals iid = none ∧
      (∀ rand', tick iid rand' (tick iid rand s) = tick iid rand s)) ∧
    (∀ s iid rec rand, TInv s → lookupA s.intervals iid = some rec →
      lookupA s.games rec.gameId = none →
      tick iid rand s = clearTimer rec.gameId s ∧
      (tick iid rand s).fired = s.fired ∧
      lookupA (tick iid rand s).intervals iid = none) :=
  ⟨by decide,
   fun op s h => TInv_applyOp op s h,
   fun s e1 e2 hT h1 h2 hg => TInv_unique s hT e1 e2 h1 h2 hg,
   fun s iid rec g rand hT h1 h2 h3 => tick_expiry_once s iid rec g rand hT h1 h2 h3,
   fun s iid rec rand hT h1 h2 => tick_missing_match s iid rec rand hT h1 h2⟩

/-- Four ticks of the demonstration turn timer, bringing it to one
remaining second. -/
def demoTick4 : GM :=
  runOps [.timerTick 2 [], .timerTick 2 [], .timerTick 2 [], .timerTick 2 []] demo4

/-- Witness for C5: the fifth tick of the demonstration turn timer fires
the callback exactly once. -/
theorem timer_service_guarantees_witness :
    (tick 2 [] demoTick4).fired = demoTick4.fired ++ [("g1", TimerCb.turnExpiry)] := by
  have hT : TInv demoTick4 := by decide
  have h1 : lookupA demoTick4.intervals 2 = some ⟨"g1", 1, TimerCb.turnExpiry⟩ := by decide
  have h2 : lookupA demoTick4.games "g1" = some
      ((lookupA demoTick4.games "g1").getD (createGame "x" 0 demoData initGM).1) := by
    decide
  exact (timer_service_guarantees.2.2.2.1 demoTick4 2 _ _ [] hT h1 h2 (by decide)).1

/-! ## Claim C3 — phase/status monotonicity (amended) -/

/-- Position of a phase string along Placement → Gameplay → Ended. -/
def phaseRank (p : String) : Nat :=
  if p = "gameplay" then 1 else if p = "ended" then 2 else 0

/-- Position of a status string along Waiting → InProgress → Completed. -/
def statusRank (st : String) : Nat :=
  if st = "in-progress" then 1 else if st = "completed" then 2 else 0

theorem phaseRank_le_two (p : String) : phaseRank p ≤ 2 := by
  unfold phaseRank
  split
  · decide
  split
  · decide
  · decide

theorem statusRank_le_two (st : String) : statusRank st ≤ 2 := by
  unfold statusRank
  split
  · decide
  split
  · decide
  · decide

theorem phaseRank_le_one_of_ne (p : String) (h : p ≠ "ended") : phaseRank p ≤ 1 := by
  unfold phaseRank
  by_cases h1 : p = "gameplay"
  · rw [if_pos h1]
  · rw [if_neg h1, if_neg h]
    decide

/-- A match's timer is gone once its phase is "ended". -/
def EndedNoTimerP (s : GM) : Prop :=
  ∀ e ∈ s.games, e.2.state.phase = "ended" → lookupA s.timers e.1 = none

/-- A match in phase "ended" is also status "completed". -/
def PhaseStatusP (s : GM) : Prop :=
  ∀ e ∈ s.games, e.2.state.phase = "ended" → e.2.status = "completed"

/-- The auxiliary game-state invariant for monotonicity: ended matches
hold no timer, ended implies completed, and the registry has unique
keys. -/
def EP (s : GM) : Prop := EndedNoTimerP s ∧ PhaseStatusP s ∧ NodupKeys s.games

/-- The full invariant for claim C3. -/
def GInv (s : GM) : Prop := TInv s ∧ EP s

instance (s : GM) : Decidable (EP s) := by
  unfold EP EndedNoTimerP PhaseStatusP NodupKeys
  infer_instance

instance (s : GM) : Decidable (GInv s) := by
  unfold GInv
  infer_instance

/-- The amendment's precondition on an operation: fresh ids for create,
and no confirm against an already-completed/ended match. -/
def AllowedOp : Op → GM → Prop
  | .create gid _ _, s => lookupA s.games gid = none
  | .confirm gid _ _, s =>
    ∀ g, lookupA s.games gid = some g → g.status ≠ "completed" ∧ g.state.phase ≠ "ended"
  | _, _ => True

/-- Per-match monotonicity of phase and status between two states. -/
def GamesMono (s s' : GM) : Prop :=
  ∀ gid g g', lookupA s.games gid = some g → lookupA s'.games gid = some g' →
    phaseRank g.state.phase ≤ phaseRank g'.state.phase ∧
    statusRank g.status ≤ statusRank g'.status

/-- No registered match disappears between two states. -/
def KeepsGames (s s' : GM) : Prop :=
  ∀ gid, (lookupA s.games gid).isSome = true → (lookupA s'.games gid).isSome = true

/-- Everything a monotone, presence-keeping, invariant-preserving step
provides. -/
def Bundle (s s' : GM) : Prop := EP s' ∧ GamesMono s s' ∧ KeepsGames s s'

theorem gamesMono_of_games_eq (s s' : GM) (h : s'.games = s.games) : GamesMono s s' := by
  intro gid g g' h1 h2
  rw [h, h1] at h2
  obtain rfl := Option.some.inj h2
  exact ⟨le_refl _, le_refl _⟩

theorem keeps_of_games_eq (s s' : GM) (h : s'.games = s.games) : KeepsGames s s' := by
  intro gid hg
  rw [h]
  exact hg

theorem gamesMono_trans (s t u : GM) (h1 : GamesMono s t) (h2 : GamesMono t u)
    (hk : KeepsGames s t) : GamesMono s u := by
  intro gid g g' hg hg'
  have hsome := hk gid (by rw [hg]; rfl)
  obtain ⟨gm, hgm⟩ := Option.isSome_iff_exists.1 hsome
  exact ⟨le_trans (h1 gid g gm hg hgm).1 (h2 gid gm g' hgm hg').1,
    le_trans (h1 gid g gm hg hgm).2 (h2 gid gm g' hgm hg').2⟩

theorem keeps_trans (s t u : GM) (h1 : KeepsGames s t) (h2 : KeepsGames t u) :
    KeepsGames s u := fun gid hg => h2 gid (h1 gid hg)

theorem bundle_trans (s t u : GM) (h1 : Bundle s t) (h2 : EP t → Bundle t u) :
    Bundle s u :=
  let b2 := h2 h1.1
  ⟨b2.1, gamesMono_trans s t u h1.2.1 b2.2.1 h1.2.2, keeps_trans s t u h1.2.2 b2.2.2⟩

theorem bundle_of_eq (s s' : GM) (hg : s'.games = s.games) (ht : s'.timers = s.timers)
    (h : EP s) : Bundle s s' := by
  refine ⟨⟨?_, ?_, ?_⟩, gamesMono_of_games_eq s s' hg, keeps_of_games_eq s s' hg⟩
  · intro e hem hphase
    rw [hg] at hem
    rw [ht]
    exact h.1 e hem hphase
  · intro e hem hphase
    rw [hg] at hem
    exact h.2.1 e hem hphase
  · rw [hg]
    exact h.2.2

theorem gamesMono_set (s s' : GM) (gid : String) (g g' : Game)
    (hg : lookupA s.games gid = some g)
    (hgames : s'.games = setA s.games gid g')
    (hp : phaseRank g.state.phase ≤ phaseRank g'.state.phase)
    (hs : statusRank g.status ≤ statusRank g'.status) : GamesMono s s' := by
  intro gid' g1 g2 h1 h2
  rw [hgames] at h2
  by_cases he : gid' = gid
  · subst he
    rw [lookupA_setA_self] at h2
    rw [hg] at h1
    obtain rfl := Option.some.inj h1
    obtain rfl := Option.some.inj h2
    exact ⟨hp, hs⟩
  · rw [lookupA_setA_ne _ _ _ _ he, h1] at h2
    obtain rfl := Option.some.inj h2
    exact ⟨le_refl _, le_refl _⟩

theorem keeps_set (s s' : GM) (gid : String) (g' : Game)
    (hgames : s'.games = setA s.games gid g') : KeepsGames s s' := by
  intro gid' h
  rw [hgames]
  by_cases he : gid' = gid
  · subst he
    rw [lookupA_setA_self]
    rfl
  · rw [lookupA_setA_ne _ _ _ _ he]
    exact h

theorem gamesMono_set_fresh (s s' : GM) (gid : String) (g' : Game)
    (hfresh : lookupA s.games gid = none)
    (hgames : s'.games = setA s.games gid g') : GamesMono s s' := by
  intro gid' g1 g2 h1 h2
  by_cases he : gid' = gid
  · subst he
    rw [hfresh] at h1
    exact Option.noConfusion h1
  · rw [hgames, lookupA_setA_ne _ _ _ _ he, h1] at h2
    obtain rfl := Option.some.inj h2
    exact ⟨le_refl _, le_refl _⟩

theorem lookupA_eq_of_mem_nodup {κ β : Type} [DecidableEq κ] {l : List (κ × β)}
    (h : NodupKeys l) {e : κ × β} (hm : e ∈ l) : lookupA l e.1 = some e.2 := by
  induction l with
  | nil => exact absurd hm (List.not_mem_nil _)
  | cons f rest ih =>
    have hf : (f.1 ∉ rest.map Prod.fst) ∧ NodupKeys rest := by
      unfold NodupKeys at h
      rw [List.map_cons, List.nodup_cons] at h
      exact h
    rcases List.mem_cons.1 hm with he | he
    · rw [he]
      show lookupA (f :: rest) f.1 = some f.2
      rw [lookupA, if_pos rfl]
    · have hne : f.1 ≠ e.1 := by
        intro hk
        exact hf.1 (List.mem_map.2 ⟨e, he, hk.symm⟩)
      rw [lookupA, if_neg hne]
      exact ih hf.2 he

/-- The common set-update step: replaces the looked-up match by an
update whose ranks do not decrease, leaving the timers untouched. -/
theorem bundle_set_gen (s s' : GM) (gid : String) (g g' : Game) (h : EP s)
    (hg : lookupA s.games gid = some g)
    (hgames : s'.games = setA s.games gid g')
    (ht : s'.timers = s.timers)
    (hp : phaseRank g.state.phase ≤ phaseRank g'.state.phase)
    (hs : statusRank g.status ≤ statusRank g'.status)
    (hEnew : g'.state.phase = "ended" →
      g'.status = "completed" ∧ lookupA s.timers gid = none) : Bundle s s' := by
  refine ⟨⟨?_, ?_, ?_⟩, gamesMono_set s s' gid g g' hg hgames hp hs,
    keeps_set s s' gid g' hgames⟩
  · intro e hem hphase
    rw [hgames] at hem
    rw [ht]
    rcases mem_setA.1 hem with ⟨hesrc, hene⟩ | hnew
    · exact h.1 e hesrc hphase
    · rw [hnew] at hphase ⊢
      exact (hEnew hphase).2
  · intro e hem hphase
    rw [hgames] at hem
    rcases mem_setA.1 hem with ⟨hesrc, hene⟩ | hnew
    · exact h.2.1 e hesrc hphase
    · rw [hnew] at hphase ⊢
      exact (hEnew hphase).1
  · rw [hgames]
    exact nodupKeys_setA _ _ h.2.2

/-- Set-update that leaves phase and status unchanged. -/
theorem bundle_set_same (s s' : GM) (gid : String) (g g' : Game) (h : EP s)
    (hg : lookupA s.games gid = some g)
    (hgames : s'.games = setA s.games gid g')
    (ht : s'.timers = s.timers)
    (hps : g'.state.phase = g.state.phase)
    (hss : g'.status = g.status) : Bundle s s' := by
  refine bundle_set_gen s s' gid g g' h hg hgames ht (by rw [hps]) (by rw [hss]) ?_
  intro hp'
  have hgp : g.state.phase = "ended" := hps ▸ hp'
  exact ⟨hss.trans (h.2.1 (gid, g) (mem_of_lookupA hg) hgp),
    h.1 (gid, g) (mem_of_lookupA hg) hgp⟩

/-- Registering a match under an id with no live entry. -/
theorem bundle_set_fresh (s s' : GM) (gid : String) (g' : Game) (h : EP s)
    (hfresh : lookupA s.games gid = none)
    (hgames : s'.games = setA s.games gid g')
    (ht : s'.timers = s.timers)
    (hpne : g'.state.phase ≠ "ended") : Bundle s s' := by
  refine ⟨⟨?_, ?_, ?_⟩, gamesMono_set_fresh s s' gid g' hfresh hgames,
    keeps_set s s' gid g' hgames⟩
  · intro e hem hphase
    rw [hgames] at hem
    rw [ht]
    rcases mem_setA.1 hem with ⟨hesrc, hene⟩ | hnew
    · exact h.1 e hesrc hphase
    · rw [hnew] at hphase
      exact absurd hphase hpne
  · intro e hem hphase
    rw [hgames] at hem
    rcases mem_setA.1 hem with ⟨hesrc, hene⟩ | hnew
    · exact h.2.1 e hesrc hphase
    · rw [hnew] at hphase
      exact absurd hphase hpne
  · rw [hgames]
    exact nodupKeys_setA _ _ h.2.2

theorem bundle_clearTimer (gid : String) (s : GM) (h : EP s) :
    Bundle s (clearTimer gid s) := by
  refine ⟨⟨?_, ?_, ?_⟩, gamesMono_of_games_eq s _ (clearTimer_games gid s),
    keeps_of_games_eq s _ (clearTimer_games gid s)⟩
  · intro e hem hphase
    rw [clearTimer_games] at hem
    by_cases he : e.1 = gid
    · rw [he]
      exact clearTimer_lookup_timers_self gid s
    · rw [clearTimer_lookup_timers_ne gid e.1 s he]
      exact h.1 e hem hphase
  · intro e hem hphase
    rw [clearTimer_games] at hem
    exact h.2.1 e hem hphase
  · rw [clearTimer_games]
    exact h.2.2

theorem bundle_startTimer (gid : String) (secs : Int) (cb : TimerCb) (s : GM) (h : EP s)
    (hne : ∀ g, lookupA s.games gid = some g → g.state.phase ≠ "ended") :
    Bundle s (startTimer gid secs cb s) := by
  refine ⟨⟨?_, ?_, ?_⟩, gamesMono_of_games_eq s _ (startTimer_games gid secs cb s),
    keeps_of_games_eq s _ (startTimer_games gid secs cb s)⟩
  · intro e hem hphase
    rw [startTimer_games] at hem
    by_cases he : e.1 = gid
    · exfalso
      have hl : lookupA s.games gid = some e.2 := by
        rw [← he]
        exact lookupA_eq_of_mem_nodup h.2.2 hem
      exact hne e.2 hl hphase
    · rw [startTimer_lookup_timers_ne gid e.1 secs cb s he]
      exact h.1 e hem hphase
  · intro e hem hphase
    rw [startTimer_games] at hem
    exact h.2.1 e hem hphase
  · rw [startTimer_games]
    exact h.2.2

theorem bundle_refl (s : GM) (h : EP s) : Bundle s s :=
  ⟨h, gamesMono_of_games_eq s s rfl, keeps_of_games_eq s s rfl⟩

theorem bundle_endGame (gid : String) (s : GM) (h : EP s) : Bundle s (endGame gid s) := by
  cases hg : lookupA s.games gid with
  | none =>
    have hid : endGame gid s = s := by
      unfold endGame
      rw [hg]
    rw [hid]
    exact bundle_refl s h
  | some g =>
    have hgames : (endGame gid s).games = setA s.games gid (endedGame g) := by
      rw [endGame_eq s gid g hg]
    have htimers : (endGame gid s).timers = (clearTimer gid s).timers := by
      rw [endGame_eq s gid g hg]
    refine ⟨⟨?_, ?_, ?_⟩, gamesMono_set s _ gid g (endedGame g) hg hgames ?_ ?_,
      keeps_set s _ gid (endedGame g) hgames⟩
    · intro e hem hphase
      rw [hgames] at hem
      rw [htimers]
      rcases mem_setA.1 hem with ⟨hesrc, hene⟩ | hnew
      · rw [clearTimer_lookup_timers_ne gid e.1 s hene]
        exact h.1 e hesrc hphase
      · rw [hnew]
        exact clearTimer_lookup_timers_self gid s
    · intro e hem hphase
      rw [hgames] at hem
      rcases mem_setA.1 hem with ⟨hesrc, hene⟩ | hnew
      · exact h.2.1 e hesrc hphase
      · rw [hnew]
        rfl
    · rw [hgames]
      exact nodupKeys_setA _ _ h.2.2
    · show phaseRank g.state.phase ≤ phaseRank "ended"
      have h2 : phaseRank "ended" = 2 := by decide
      rw [h2]
      exact phaseRank_le_two _
    · show statusRank g.status ≤ statusRank "completed"
      have h2 : statusRank "completed" = 2 := by decide
      rw [h2]
      exact statusRank_le_two _

/-- The match update of `startGameplayPhase`. -/
def gStarted (g : Game) : Game :=
  { g with state :=
    { g.state with phase := "gameplay", timeLeft := 5, currentPlayer := some g.creator } }

theorem bundle_startGameplayPhase (gid : String) (s : GM) (h : EP s)
    (hne : ∀ g, lookupA s.games gid = some g → g.state.phase ≠ "ended") :
    Bundle s (startGameplayPhase gid s) := by
  unfold startGameplayPhase
  cases hg : lookupA s.games gid with
  | none => exact bundle_refl s h
  | some g =>
    dsimp only
    show Bundle s (startTimer gid 5 .turnExpiry { s with games := setA s.games gid (gStarted g) })
    refine bundle_trans s { s with games := setA s.games gid (gStarted g) } _ ?_ ?_
    · refine bundle_set_gen s _ gid g (gStarted g) h hg rfl rfl ?_ (le_refl _) ?_
      · show phaseRank g.state.phase ≤ phaseRank "gameplay"
        have h1 : phaseRank "gameplay" = 1 := by decide
        rw [h1]
        exact phaseRank_le_one_of_ne _ (hne g hg)
      · intro hp'
        exact absurd hp' (show ¬ ("gameplay" : String) = "ended" by decide)
    · intro h1
      refine bundle_startTimer gid 5 .turnExpiry _ h1 ?_
      intro g' hg'
      have : lookupA (setA s.games gid (gStarted g)) gid = some (gStarted g) :=
        lookupA_setA_self _ _ _
      rw [show lookupA ({ s with games := setA s.games gid (gStarted g) } : GM).games gid =
        some (gStarted g) from this] at hg'
      obtain rfl := Option.some.inj hg'
      show ("gameplay" : String) ≠ "ended"
      decide

theorem autoPlaceBombs_phase (gid : String) (rand : List Nat) (t : GM) (gid' : String)
    (g' : Game) (h : lookupA (autoPlaceBombs gid rand t).games gid' = some g') :
    ∃ g₀, lookupA t.games gid' = some g₀ ∧ g'.state.phase = g₀.state.phase ∧
      g'.status = g₀.status := by
  unfold autoPlaceBombs at h
  cases hg : lookupA t.games gid with
  | none =>
    rw [hg] at h
    exact ⟨g', h, rfl, rfl⟩
  | some g =>
    rw [hg] at h
    dsimp only at h
    by_cases he : gid' = gid
    · subst he
      rw [show lookupA ({ t with games := setA t.games gid' _ } : GM).games gid' =
        some _ from lookupA_setA_self _ _ _] at h
      obtain rfl := Option.some.inj h
      exact ⟨g, hg, rfl, rfl⟩
    · rw [show lookupA ({ t with games := setA t.games gid _ } : GM).games gid' =
        lookupA t.games gid' from lookupA_setA_ne _ _ _ _ he] at h
      exact ⟨g', h, rfl, rfl⟩

theorem bundle_autoPlaceBombs (gid : String) (rand : List Nat) (s : GM) (h : EP s) :
    Bundle s (autoPlaceBombs gid rand s) := by
  unfold autoPlaceBombs
  cases hg : lookupA s.games gid with
  | none => exact bundle_refl s h
  | some g =>
    dsimp only
    exact bundle_set_same s _ gid g _ h hg rfl rfl rfl rfl

theorem startGameplayPhase_phase_ne (gid : String) (t : GM) (gid' : String) (g' : Game)
    (hl : lookupA (startGameplayPhase gid t).games gid' = some g')
    (hprev : ∀ g₀, lookupA t.games gid' = some g₀ → g₀.state.phase ≠ "ended") :
    g'.state.phase ≠ "ended" := by
  unfold startGameplayPhase at hl
  cases hg : lookupA t.games gid with
  | none =>
    rw [hg] at hl
    exact hprev g' hl
  | some g =>
    rw [hg] at hl
    dsimp only at hl
    have hl2 : lookupA (setA t.games gid (gStarted g)) gid' = some g' := by
      have hl' : lookupA (startTimer gid 5 .turnExpiry
        { t with games := setA t.games gid (gStarted g) }).games gid' = some g' := hl
      rw [startTimer_games] at hl'
      exact hl'

    by_cases he : gid' = gid
    · subst he
      rw [lookupA_setA_self] at hl2
      obtain rfl := Option.some.inj hl2
      show ("gameplay" : String) ≠ "ended"
      decide
    · rw [lookupA_setA_ne _ _ _ _ he] at hl2
      exact hprev g' hl2

theorem bundle_runCb (cb : TimerCb) (gid : String) (rand : List Nat) (t : GM) (h : EP t)
    (hne : ∀ g, lookupA t.games gid = some g → g.state.phase ≠ "ended") :
    Bundle t (runCb cb gid rand t) := by
  unfold runCb
  cases cb with
  | turnExpiry =>
    dsimp only
    rw [handleRoundTimeout_state]
    exact bundle_of_eq t _ rfl rfl h
  | placementExpiry =>
    dsimp only
    refine bundle_trans t { t with fired := t.fired ++ [(gid, TimerCb.placementExpiry)] } _
      (bundle_of_eq t _ rfl rfl h) ?_
    intro h1
    refine bundle_trans _
      (autoPlaceBombs gid rand { t with fired := t.fired ++ [(gid, TimerCb.placementExpiry)] })
      _ (bundle_autoPlaceBombs gid rand _ h1) ?_
    intro h2
    refine bundle_startGameplayPhase gid _ h2 ?_
    intro g' hg'
    obtain ⟨g₀, hg₀, hph, _⟩ := autoPlaceBombs_phase gid rand _ gid g' hg'
    rw [hph]
    exact hne g₀ hg₀

theorem bundle_foldl {α : Type} (f : GM → α → GM)
    (hf : ∀ t a, EP t → Bundle t (f t a)) (l : List α) (s : GM) (h : EP s) :
    Bundle s (l.foldl f s) := by
  induction l generalizing s with
  | nil => exact bundle_refl s h
  | cons a rest ih =>
    exact bundle_trans s (f s a) _ (hf s a h) (fun h' => ih (f s a) h')

theorem bundle_createOp (gid : String) (now : Nat) (d : GameData) (s : GM) (h : EP s)
    (hfresh : lookupA s.games gid = none) : Bundle s (createOp gid now d s) :=
  bundle_set_fresh s _ gid (createGame gid now d s).1 h hfresh rfl rfl
    (show ¬ ("placement" : String) = "ended" by decide)

/-- The match update of `joinGame`. -/
def gJoined (g : Game) (pid : String) : Game :=
  { g with opponent := some pid, status := "in-progress" }

theorem bundle_joinOp (gid pid : String) (bet : Int) (s : GM) (h : EP s) :
    Bundle s (joinOp gid pid bet s) := by
  unfold joinOp joinGame
  cases hg : lookupA s.games gid with
  | none => exact bundle_refl s h
  | some g =>
    dsimp only
    split
    · exact bundle_refl s h
    split
    · exact bundle_refl s h
    split
    · exact bundle_refl s h
    split
    · exact bundle_refl s h
    split
    · exact bundle_refl s h
    rename_i hst hfull hcr hpid hbet
    have hwait : g.status = "waiting" := not_not.1 hst
    have hnend : g.state.phase ≠ "ended" := by
      intro hp'
      have hcomp := h.2.1 (gid, g) (mem_of_lookupA hg) hp'
      rw [hwait] at hcomp
      exact absurd hcomp (by decide)
    show Bundle s (startGame gid { s with games := setA s.games gid (gJoined g pid) })
    refine bundle_trans s { s with games := setA s.games gid (gJoined g pid) } _ ?_ ?_
    · refine bundle_set_gen s _ gid g (gJoined g pid) h hg rfl rfl (le_refl _) ?_ ?_
      · show statusRank g.status ≤ statusRank "in-progress"
        rw [hwait]
        decide
      · intro hp'
        exact absurd hp' hnend
    · intro h1
      unfold startGame
      have hls : lookupA ({ s with games := setA s.games gid (gJoined g pid) } : GM).games
          gid = some (gJoined g pid) := lookupA_setA_self _ _ _
      rw [hls]
      refine bundle_startTimer gid 10 .placementExpiry _ h1 ?_
      intro g' hg'
      rw [hls] at hg'
      obtain rfl := Option.some.inj hg'
      exact hnend

/-- The match update of `confirmBombPlacement`'s store. -/
def gConfirmed (g : Game) (pid : String) (bombs : BombGrid) : Game :=
  { g with bombPlacements := setA g.bombPlacements pid bombs }

/-- The subsequent `bothPlayersReady` flag flip. -/
def gReady (g : Game) : Game := { g with bothPlayersReady := true }

/-- The registry state after storing the submitted grid. -/
def confirmOneState (s : GM) (gid pid : String) (bombs : BombGrid) (g : Game) : GM :=
  { s with games := setA s.games gid (gConfirmed g pid bombs) }

/-- The registry state after both placements are in and the flag is set. -/
def confirmTwoState (s : GM) (gid pid : String) (bombs : BombGrid) (g : Game) : GM :=
  { s with
    games := setA (setA s.games gid (gConfirmed g pid bombs)) gid
      (gReady (gConfirmed g pid bombs)) }

theorem confirm_bundle_and_phase (gid pid : String) (bombs : BombGrid) (s : GM) (h : EP s)
    (hA : ∀ g, lookupA s.games gid = some g → g.state.phase ≠ "ended") :
    Bundle s (confirmBombPlacement gid pid bombs s) ∧
    (∀ g', lookupA (confirmBombPlacement gid pid bombs s).games gid = some g' →
      g'.state.phase ≠ "ended") := by
  unfold confirmBombPlacement
  cases hg : lookupA s.games gid with
  | none => exact ⟨bundle_refl s h, fun g' hg' => hA g' hg'⟩
  | some g =>
    dsimp only
    have hne := hA g hg
    have hl1 : lookupA (confirmOneState s gid pid bombs g).games gid =
        some (gConfirmed g pid bombs) := lookupA_setA_self _ _ _
    have hl2 : lookupA (clearTimer gid (confirmTwoState s gid pid bombs g)).games gid =
        some (gReady (gConfirmed g pid bombs)) := by
      rw [clearTimer_games]
      exact lookupA_setA_self _ _ _
    by_cases h2 : (setA g.bombPlacements pid bombs).length = 2
    · rw [if_pos h2]
      have b1 : Bundle s (confirmOneState s gid pid bombs g) :=
        bundle_set_same s _ gid g (gConfirmed g pid bombs) h hg rfl rfl rfl rfl
      constructor
      · refine bundle_trans s (confirmOneState s gid pid bombs g) _ b1 ?_
        intro h1
        refine bundle_trans _ (confirmTwoState s gid pid bombs g) _ ?_ ?_
        · exact bundle_set_same _ _ gid (gConfirmed g pid bombs)
            (gReady (gConfirmed g pid bombs)) h1 hl1 rfl rfl rfl rfl
        · intro h2'
          refine bundle_trans _ (clearTimer gid (confirmTwoState s gid pid bombs g)) _
            (bundle_clearTimer gid _ h2') ?_
          intro h3
          refine bundle_startGameplayPhase gid _ h3 ?_
          intro g' hg'
          have hg'c : lookupA (clearTimer gid
            (confirmTwoState s gid pid bombs g)).games gid = some g' := hg'
          rw [hl2] at hg'c
          obtain rfl := Option.some.inj hg'c
          exact hne
      · intro g' hg'
        refine startGameplayPhase_phase_ne gid _ gid g' hg' ?_
        intro g₀ hg₀
        have hg₀c : lookupA (clearTimer gid
          (confirmTwoState s gid pid bombs g)).games gid = some g₀ := hg₀
        rw [hl2] at hg₀c
        obtain rfl := Option.some.inj hg₀c
        exact hne
    · rw [if_neg h2]
      constructor
      · exact bundle_set_same s _ gid g (gConfirmed g pid bombs) h hg rfl rfl rfl rfl
      · intro g' hg'
        have hg'c : lookupA (confirmOneState s gid pid bombs g).games gid = some g' := hg'
        rw [hl1] at hg'c
        obtain rfl := Option.some.inj hg'c
        exact hne

theorem bundle_confirmOp (gid pid : String) (bombs : BombGrid) (s : GM) (h : EP s)
    (hA : ∀ g, lookupA s.games gid = some g → g.state.phase ≠ "ended") :
    Bundle s (confirmOp gid pid bombs s) := by
  obtain ⟨b1, hchar⟩ := confirm_bundle_and_phase gid pid bombs s h hA
  unfold confirmOp
  dsimp only
  cases hc : lookupA (confirmBombPlacement gid pid bombs s).games gid with
  | none => exact b1
  | some g' =>
    dsimp only
    split
    · exact bundle_trans s _ _ b1 (fun h1 => bundle_startGameplayPhase gid _ h1 hchar)
    · exact b1

/-- The intermediate registry states of the coin path of `revealField`. -/
def revealMark1 (s : GM) (gid : String) (x y : Nat) (g : Game) (row : Row) : GM :=
  { s with games := setA s.games gid (gAfterMark g x y row) }

def revealMark2 (s : GM) (gid pid : String) (x y : Nat) (g : Game) (row : Row) : GM :=
  { s with
    games := setA (setA s.games gid (gAfterMark g x y row)) gid (gAfterCoin g pid x y row) }

theorem bundle_revealOp (gid pid : String) (x y : Nat) (s : GM) (h : EP s) :
    Bundle s (revealOp gid pid x y s) := by
  unfold revealOp
  cases hr : revealField gid pid x y s with
  | error e => exact bundle_refl s h
  | ok p =>
    obtain ⟨res, s'⟩ := p
    dsimp only
    cases hg : lookupA s.games gid with
    | none =>
      rw [revealField_err_notFound s gid pid x y hg] at hr
      exact Except.noConfusion hr
    | some g =>
      by_cases hphase : g.state.phase = "gameplay"
      case neg =>
        rw [revealField_err_phase s gid pid x y g hg hphase] at hr
        exact Except.noConfusion hr
      by_cases hturn : g.state.currentPlayer = some pid
      case neg =>
        rw [revealField_err_turn s gid pid x y g hg hphase hturn] at hr
        exact Except.noConfusion hr
      cases hrow : g.state.revealedFields.get? x with
      | none =>
        have htype : revealField gid pid x y s = .error .typeError := by
          unfold revealField
          rw [hg]
          dsimp only
          rw [if_neg (not_not_intro hphase), if_neg (not_not_intro hturn), hrow]
        rw [htype] at hr
        exact Except.noConfusion hr
      | some row =>
        cases hrev : (lookupA row y).getD false with
        | true =>
          rw [revealField_err_revealed s gid pid x y g row hg hphase hturn hrow hrev] at hr
          exact Except.noConfusion hr
        | false =>
          rw [revealField_run s gid pid x y g row hg hphase hturn hrow hrev] at hr
          have hnend : g.state.phase ≠ "ended" := by
            rw [hphase]
            decide
          cases hb : hasBombOf g pid x y with
          | true =>
            rw [hb, if_pos rfl] at hr
            injection hr with hpair
            injection hpair with hres hstate
            subst hstate
            subst hres
            show Bundle s (if true = true then endGame gid (bombState s gid x y g row)
              else bombState s gid x y g row)
            rw [if_pos rfl]
            refine bundle_trans s (bombState s gid x y g row) _ ?_
              (fun h1 => bundle_endGame gid _ h1)
            exact bundle_set_same s _ gid g (gAfterMark g x y row) h hg rfl rfl rfl rfl
          | false =>
            rw [hb, if_neg Bool.false_ne_true] at hr
            injection hr with hpair
            injection hpair with hres hstate
            subst hstate
            subst hres
            show Bundle s (if false = true then endGame gid (coinState s gid pid x y g row)
              else coinState s gid pid x y g row)
            rw [if_neg Bool.false_ne_true]
            have hm1 : lookupA (revealMark1 s gid x y g row).games gid =
                some (gAfterMark g x y row) := lookupA_setA_self _ _ _
            have hm2 : lookupA (clearTimer gid (revealMark2 s gid pid x y g row)).games gid =
                some (gAfterCoin g pid x y row) := by
              rw [clearTimer_games]
              exact lookupA_setA_self _ _ _
            refine bundle_trans s (revealMark1 s gid x y g row) _ ?_ ?_
            · exact bundle_set_same s _ gid g (gAfterMark g x y row) h hg rfl rfl rfl rfl
            intro h1
            refine bundle_trans _ (revealMark2 s gid pid x y g row) _ ?_ ?_
            · exact bundle_set_same _ _ gid (gAfterMark g x y row) (gAfterCoin g pid x y row)
                h1 hm1 rfl rfl rfl rfl
            intro h2
            refine bundle_trans _ (clearTimer gid (revealMark2 s gid pid x y g row)) _
              (bundle_clearTimer gid _ h2) ?_
            intro h3
            refine bundle_startTimer gid 5 .turnExpiry _ h3 ?_
            intro g' hg'
            rw [hm2] at hg'
            obtain rfl := Option.some.inj hg'
            show g.state.phase ≠ "ended"
            exact hnend

theorem bundle_tick (iid : Nat) (rand : List Nat) (s : GM) (hG : GInv s) :
    Bundle s (tick iid rand s) := by
  obtain ⟨hT, h⟩ := hG
  unfold tick
  cases hrec : lookupA s.intervals iid with
  | none => exact bundle_refl s h
  | some rec =>
    dsimp only
    cases hgame : lookupA s.games rec.gameId with
    | none => exact bundle_clearTimer rec.gameId s h
    | some g =>
      dsimp only
      have hcoh : lookupA s.timers rec.gameId = some iid :=
        hT.1 (iid, rec) (mem_of_lookupA hrec)
      have hnend : g.state.phase ≠ "ended" := by
        intro hp'
        rw [h.1 (rec.gameId, g) (mem_of_lookupA hgame) hp'] at hcoh
        exact Option.noConfusion hcoh
      have b1 : Bundle s (tickMidState s iid rec g) :=
        bundle_set_same s _ rec.gameId g
          { g with state := { g.state with timeLeft := rec.timeLeft - 1 } } h hgame
          rfl rfl rfl rfl
      have hmid : lookupA (clearTimer rec.gameId (tickMidState s iid rec g)).games
          rec.gameId = some { g with state := { g.state with timeLeft := rec.timeLeft - 1 } } := by
        rw [clearTimer_games]
        exact lookupA_setA_self _ _ _
      split
      · show Bundle s (runCb rec.cb rec.gameId rand
          (clearTimer rec.gameId (tickMidState s iid rec g)))
        refine bundle_trans s (tickMidState s iid rec g) _ b1 ?_
        intro h1
        refine bundle_trans _ (clearTimer rec.gameId (tickMidState s iid rec g)) _
          (bundle_clearTimer rec.gameId _ h1) ?_
        intro h2
        refine bundle_runCb rec.cb rec.gameId rand _ h2 ?_
        intro g' hg'
        rw [hmid] at hg'
        obtain rfl := Option.some.inj hg'
        show g.state.phase ≠ "ended"
        exact hnend
      · exact b1

theorem bundle_exitGame_c3 (gid pid : String) (s : GM) (h : EP s) :
    Bundle s (exitGame gid pid s) := by
  unfold exitGame
  cases lookupA s.games gid with
  | none => exact bundle_refl s h
  | some g =>
    dsimp only
    split
    · exact bundle_endGame gid s h
    split
    · exact bundle_endGame gid s h
    · exact bundle_refl s h

theorem bundle_disconnect (pid : String) (s : GM) (h : EP s) :
    Bundle s (handlePlayerDisconnect pid s) := by
  unfold handlePlayerDisconnect
  refine bundle_foldl _ ?_ _ s h
  intro t gid ht
  cases lookupA t.games gid with
  | none => exact bundle_refl t ht
  | some g =>
    dsimp only
    split
    · exact bundle_exitGame_c3 gid pid t ht
    · exact bundle_refl t ht

theorem bundle_cleanup (now : Nat) (s : GM) (h : EP s) :
    Bundle s (cleanupOldGames now s) := by
  unfold cleanupOldGames
  refine bundle_foldl _ ?_ _ s h
  intro t gid ht
  cases lookupA t.games gid with
  | none => exact bundle_refl t ht
  | some g =>
    dsimp only
    split
    · exact bundle_endGame gid t ht
    · exact bundle_refl t ht

theorem ep_mono_removal (gid : String) (s : GM) (h : EP s) :
    EP (removalFire gid s) ∧ GamesMono s (removalFire gid s) := by
  unfold removalFire
  split
  · constructor
    · refine ⟨?_, ?_, ?_⟩
      · intro e hem hphase
        have hem' : e ∈ removeA s.games gid := hem
        exact h.1 e (mem_removeA.1 hem').1 hphase
      · intro e hem hphase
        have hem' : e ∈ removeA s.games gid := hem
        exact h.2.1 e (mem_removeA.1 hem').1 hphase
      · exact nodupKeys_removeA gid h.2.2
    · intro gid' g g' h1 h2
      by_cases he : gid' = gid
      · subst he
        have h2' : lookupA (removeA s.games gid') gid' = some g' := h2
        rw [lookupA_removeA_self] at h2'
        exact Option.noConfusion h2'
      · have h2' : lookupA (removeA s.games gid) gid' = some g' := h2
        rw [lookupA_removeA_ne _ _ _ he, h1] at h2'
        obtain rfl := Option.some.inj h2'
        exact ⟨le_refl _, le_refl _⟩
  · exact ⟨h, gamesMono_of_games_eq s s rfl⟩

/-- Claim C3, amended.  With `GInv` (the timer invariant together with:
ended matches hold no timer, ended implies completed, unique registry
keys), which holds in the initial state: every operation whose
preconditions follow the amendment — `create` only with an id that is
not live, `confirm-bomb-placement` never against a completed/ended
match — preserves the invariant, and for every match registered both
before and after the operation, `phase` never moves backwards along
Placement → Gameplay → Ended and `status` never moves backwards along
Waiting → InProgress → Completed.  Inductively this covers every
operation sequence satisfying the amendment.  (The unrestricted claim is
refuted by `phase_regresses_after_end`.) -/
theorem phase_status_monotone_restricted :
    GInv initGM ∧
    (∀ op s, GInv s → AllowedOp op s →
      GInv (applyOp op s) ∧
      ∀ gid g g', lookupA s.games gid = some g →
        lookupA (applyOp op s).games gid = some g' →
        phaseRank g.state.phase ≤ phaseRank g'.state.phase ∧
        statusRank g.status ≤ statusRank g'.status) := by
  refine ⟨by decide, ?_⟩
  intro op s hG hA
  have hT' := TInv_applyOp op s hG.1
  cases op with
  | create gid now d =>
    have hb := bundle_createOp gid now d s hG.2 hA
    exact ⟨⟨hT', hb.1⟩, hb.2.1⟩
  | join gid pid bet =>
    have hb := bundle_joinOp gid pid bet s hG.2
    exact ⟨⟨hT', hb.1⟩, hb.2.1⟩
  | confirm gid pid bombs =>
    have hb := bundle_confirmOp gid pid bombs s hG.2 (fun g hg => (hA g hg).2)
    exact ⟨⟨hT', hb.1⟩, hb.2.1⟩
  | reveal gid pid x y =>
    have hb := bundle_revealOp gid pid x y s hG.2
    exact ⟨⟨hT', hb.1⟩, hb.2.1⟩
  | timerTick iid rand =>
    have hb := bundle_tick iid rand s hG
    exact ⟨⟨hT', hb.1⟩, hb.2.1⟩
  | exit gid pid =>
    have hb := bundle_exitGame_c3 gid pid s hG.2
    exact ⟨⟨hT', hb.1⟩, hb.2.1⟩
  | disconnect pid =>
    have hb := bundle_disconnect pid s hG.2
    exact ⟨⟨hT', hb.1⟩, hb.2.1⟩
  | endMatch gid =>
    have hb := bundle_endGame gid s hG.2
    exact ⟨⟨hT', hb.1⟩, hb.2.1⟩
  | cleanup now =>
    have hb := bundle_cleanup now s hG.2
    exact ⟨⟨hT', hb.1⟩, hb.2.1⟩
  | removal gid =>
    have hb := ep_mono_removal gid s hG.2
    exact ⟨⟨hT', hb.1⟩, hb.2⟩

/-- Witness for the amended C3 at a concrete input: ending the live
demonstration match preserves the invariant. -/
theorem phase_status_monotone_restricted_witness :
    GInv (applyOp (Op.endMatch "g1") demo4) := by
  have h1 : GInv demo4 := by decide
  exact (phase_status_monotone_restricted.2 (Op.endMatch "g1") demo4 h1 trivial).1

/-! ## Claim C8 — bombPlacements bound and immutability (amended) -/

/-- Well-formed placements of one match: every stored grid belongs to a
participant, and the mapping has unique keys. -/
def BPOkP (g : Game) : Prop :=
  (∀ e ∈ g.bombPlacements, e.1 = g.creator ∨ some e.1 = g.opponent) ∧
  NodupKeys g.bombPlacements

/-- Registry-wide placements invariant. -/
def BPInv (s : GM) : Prop := ∀ e ∈ s.games, BPOkP e.2

instance (g : Game) : Decidable (BPOkP g) := by
  unfold BPOkP NodupKeys
  infer_instance

instance (s : GM) : Decidable (BPInv s) := by
  unfold BPInv
  infer_instance

/-- The amendment's precondition: fresh ids for create; confirms only by
a participant and only during the Placement phase. -/
def AllowedC8 : Op → GM → Prop
  | .create gid _ _, s => lookupA s.games gid = none
  | .confirm gid pid _, s =>
    ∀ g, lookupA s.games gid = some g →
      g.state.phase = "placement" ∧ (pid = g.creator ∨ some pid = g.opponent)
  | _, _ => True

/-- Entries of a non-Placement match persist (and the match does not
return to Placement). -/
def PersistsPlus (s s' : GM) : Prop :=
  ∀ gid g g', lookupA s.games gid = some g → lookupA s'.games gid = some g' →
    g.state.phase ≠ "placement" →
    g'.state.phase ≠ "placement" ∧
    ∀ pid grid, lookupA g.bombPlacements pid = some grid →
      lookupA g'.bombPlacements pid = some grid

/-- The step bundle for claim C8. -/
def BBundle (s s' : GM) : Prop := BPInv s' ∧ PersistsPlus s s' ∧ KeepsGames s s'

theorem persistsPlus_of_games_eq (s s' : GM) (h : s'.games = s.games) :
    PersistsPlus s s' := by
  intro gid g g' h1 h2 hp
  rw [h, h1] at h2
  obtain rfl := Option.some.inj h2
  exact ⟨hp, fun pid grid hg => hg⟩

theorem bbundle_refl (s : GM) (h : BPInv s) : BBundle s s :=
  ⟨h, persistsPlus_of_games_eq s s rfl, keeps_of_games_eq s s rfl⟩

theorem bbundle_of_games_eq (s s' : GM) (hg : s'.games = s.games) (h : BPInv s) :
    BBundle s s' := by
  refine ⟨?_, persistsPlus_of_games_eq s s' hg, keeps_of_games_eq s s' hg⟩
  intro e hem
  rw [hg] at hem
  exact h e hem

theorem persistsPlus_trans (s t u : GM) (h1 : PersistsPlus s t) (h2 : PersistsPlus t u)
    (hk : KeepsGames s t) : PersistsPlus s u := by
  intro gid g g' hg hg' hp
  have hsome := hk gid (by rw [hg]; rfl)
  obtain ⟨gm, hgm⟩ := Option.isSome_iff_exists.1 hsome
  obtain ⟨hpm, hbm⟩ := h1 gid g gm hg hgm hp
  obtain ⟨hpm', hbm'⟩ := h2 gid gm g' hgm hg' hpm
  exact ⟨hpm', fun pid grid hgr => hbm' pid grid (hbm pid grid hgr)⟩

theorem bbundle_trans (s t u : GM) (h1 : BBundle s t) (h2 : BPInv t → BBundle t u) :
    BBundle s u :=
  let b2 := h2 h1.1
  ⟨b2.1, persistsPlus_trans s t u h1.2.1 b2.2.1 h1.2.2, keeps_trans s t u h1.2.2 b2.2.2⟩

theorem bbundle_set (s s' : GM) (gid : String) (g g' : Game) (h : BPInv s)
    (hg : lookupA s.games gid = some g)
    (hgames : s'.games = setA s.games gid g')
    (hok : BPOkP g')
    (hstep : g.state.phase ≠ "placement" →
      g'.state.phase ≠ "placement" ∧
      ∀ pid grid, lookupA g.bombPlacements pid = some grid →
        lookupA g'.bombPlacements pid = some grid) : BBundle s s' := by
  refine ⟨?_, ?_, keeps_set s s' gid g' hgames⟩
  · intro e hem
    rw [hgames] at hem
    rcases mem_setA.1 hem with ⟨hesrc, _⟩ | hnew
    · exact h e hesrc
    · rw [hnew]
      exact hok
  · intro gid' g1 g2 h1 h2 hp
    rw [hgames] at h2
    by_cases he : gid' = gid
    · subst he
      rw [lookupA_setA_self] at h2
      rw [hg] at h1
      obtain rfl := Option.some.inj h1
      obtain rfl := Option.some.inj h2
      exact hstep hp
    · rw [lookupA_setA_ne _ _ _ _ he, h1] at h2
      obtain rfl := Option.some.inj h2
      exact ⟨hp, fun pid grid hgr => hgr⟩

theorem bbundle_set_fresh (s s' : GM) (gid : String) (g' : Game) (h : BPInv s)
    (hfresh : lookupA s.games gid = none)
    (hgames : s'.games = setA s.games gid g')
    (hok : BPOkP g') : BBundle s s' := by
  refine ⟨?_, ?_, keeps_set s s' gid g' hgames⟩
  · intro e hem
    rw [hgames] at hem
    rcases mem_setA.1 hem with ⟨hesrc, _⟩ | hnew
    · exact h e hesrc
    · rw [hnew]
      exact hok
  · intro gid' g1 g2 h1 h2 hp
    rw [hgames] at h2
    by_cases he : gid' = gid
    · subst he
      rw [hfresh] at h1
      exact Option.noConfusion h1
    · rw [lookupA_setA_ne _ _ _ _ he, h1] at h2
      obtain rfl := Option.some.inj h2
      exact ⟨hp, fun pid grid hgr => hgr⟩

theorem keys_nodup_head {κ β : Type} {x : κ × β} {rest : List (κ × β)}
    (h : NodupKeys (x :: rest)) :
    (∀ e ∈ rest, x.1 ≠ e.1) ∧ NodupKeys rest := by
  unfold NodupKeys at *
  rw [List.map_cons, List.nodup_cons] at h
  exact ⟨fun e he hk => h.1 (List.mem_map.2 ⟨e, he, hk.symm⟩), h.2⟩

theorem length_le_two_of_keys {β : Type} {l : List (String × β)} {a : String}
    {ob : Option String}
    (hsub : ∀ e ∈ l, e.1 = a ∨ some e.1 = ob) (hnd : NodupKeys l) : l.length ≤ 2 := by
  cases l with
  | nil => show 0 ≤ 2; decide
  | cons x l1 =>
    cases l1 with
    | nil => show 1 ≤ 2; decide
    | cons y l2 =>
      cases l2 with
      | nil => show 2 ≤ 2; decide
      | cons z l3 =>
        exfalso
        have hx1 := (keys_nodup_head hnd).1
        have hnd2 := (keys_nodup_head hnd).2
        have hy1 := (keys_nodup_head hnd2).1
        have hxy : x.1 ≠ y.1 := hx1 y (List.mem_cons_self _ _)
        have hxz : x.1 ≠ z.1 :=
          hx1 z (List.mem_cons_of_mem _ (List.mem_cons_self _ _))
        have hyz : y.1 ≠ z.1 := hy1 z (List.mem_cons_self _ _)
        have hx := hsub x (List.mem_cons_self _ _)
        have hy := hsub y (List.mem_cons_of_mem _ (List.mem_cons_self _ _))
        have hz := hsub z (List.mem_cons_of_mem _
          (List.mem_cons_of_mem _ (List.mem_cons_self _ _)))
        rcases hx with hx | hx <;> rcases hy with hy | hy <;> rcases hz with hz | hz
        · exact hxy (hx.trans hy.symm)
        · exact hxy (hx.trans hy.symm)
        · exact hxz (hx.trans hz.symm)
        · exact hyz (Option.some.inj (hy.trans hz.symm))
        · exact hyz (hy.trans hz.symm)
        · exact hxz (Option.some.inj (hx.trans hz.symm))
        · exact hxy (Option.some.inj (hx.trans hy.symm))
        · exact hxy (Option.some.inj (hx.trans hy.symm))

theorem autoFor_entries (n bc : Nat) (pid : String)
    (acc : List (String × BombGrid) × List Nat) :
    (∀ e ∈ (autoFor n bc pid acc).1, e ∈ acc.1 ∨ e.1 = pid) ∧
    (NodupKeys acc.1 → NodupKeys (autoFor n bc pid acc).1) ∧
    (∀ pid₀ grid, lookupA acc.1 pid₀ = some grid →
      lookupA (autoFor n bc pid acc).1 pid₀ = some grid) := by
  unfold autoFor
  cases hl : lookupA acc.1 pid with
  | some g => exact ⟨fun e he => Or.inl he, fun h => h, fun pid₀ grid h => h⟩
  | none =>
    dsimp only
    refine ⟨?_, ?_, ?_⟩
    · intro e he
      rcases mem_setA.1 he with ⟨hm, _⟩ | hnew
      · exact Or.inl hm
      · rw [hnew]
        exact Or.inr rfl
    · intro h
      exact nodupKeys_setA _ _ h
    · intro pid₀ grid h
      have hne : pid₀ ≠ pid := by
        intro he
        rw [he, hl] at h
        exact Option.noConfusion h
      rw [lookupA_setA_ne _ _ _ _ hne]
      exact h

theorem foldl_autoFor_entries (players : List String) (n bc : Nat)
    (start : List (String × BombGrid) × List Nat) :
    (∀ e ∈ (players.foldl (fun acc pid => autoFor n bc pid acc) start).1,
      e ∈ start.1 ∨ e.1 ∈ players) ∧
    (NodupKeys start.1 →
      NodupKeys (players.foldl (fun acc pid => autoFor n bc pid acc) start).1) ∧
    (∀ pid₀ grid, lookupA start.1 pid₀ = some grid →
      lookupA (players.foldl (fun acc pid => autoFor n bc pid acc) start).1 pid₀ =
        some grid) := by
  induction players generalizing start with
  | nil => exact ⟨fun e he => Or.inl he, fun h => h, fun pid₀ grid h => h⟩
  | cons p rest ih =>
    rw [List.foldl_cons]
    obtain ⟨ha1, ha2, ha3⟩ := autoFor_entries n bc p start
    obtain ⟨hi1, hi2, hi3⟩ := ih (autoFor n bc p start)
    refine ⟨?_, fun h => hi2 (ha2 h), fun pid₀ grid h => hi3 pid₀ grid (ha3 pid₀ grid h)⟩
    intro e he
    rcases hi1 e he with hm | hk
    · rcases ha1 e hm with hm' | hk'
      · exact Or.inl hm'
      · refine Or.inr ?_
        rw [hk']
        exact List.mem_cons_self _ _
    · exact Or.inr (List.mem_cons_of_mem _ hk)

/-- The participant list `[creator, opponent].filter(Boolean)` of
`autoPlaceBombs`. -/
def playersOf (g : Game) : List String :=
  match g.opponent with
  | some o => [g.creator, o]
  | none => [g.creator]

/-- The match update of `autoPlaceBombs`. -/
def gAuto (g : Game) (rand : List Nat) : Game :=
  { g with
    bombPlacements := ((playersOf g).foldl
      (fun acc pid => autoFor (gridSizeOf g.size) g.bombs pid acc)
      (g.bombPlacements, rand)).1,
    bothPlayersReady := true }

theorem mem_playersOf (g : Game) (a : String) (h : a ∈ playersOf g) :
    a = g.creator ∨ some a = g.opponent := by
  unfold playersOf at h
  cases ho : g.opponent with
  | some o =>
    rw [ho] at h
    dsimp only at h
    rcases List.mem_cons.1 h with h1 | h1
    · exact Or.inl h1
    · rcases List.mem_cons.1 h1 with h2 | h2
      · refine Or.inr ?_
        rw [h2]
      · exact absurd h2 (List.not_mem_nil _)
  | none =>
    rw [ho] at h
    dsimp only at h
    rcases List.mem_cons.1 h with h1 | h1
    · exact Or.inl h1
    · exact absurd h1 (List.not_mem_nil _)

theorem bpok_gAuto (g : Game) (rand : List Nat) (h : BPOkP g) : BPOkP (gAuto g rand) := by
  obtain ⟨hf1, hf2, _⟩ := foldl_autoFor_entries (playersOf g) (gridSizeOf g.size) g.bombs
    (g.bombPlacements, rand)
  refine ⟨?_, hf2 h.2⟩
  intro e he
  rcases hf1 e he with hm | hk
  · exact h.1 e hm
  · exact mem_playersOf g e.1 hk

theorem bbundle_startGameplayPhase_c8 (gid : String) (t : GM) (h : BPInv t) :
    BBundle t (startGameplayPhase gid t) := by
  unfold startGameplayPhase
  cases hg : lookupA t.games gid with
  | none => exact bbundle_refl t h
  | some g =>
    dsimp only
    show BBundle t
      (startTimer gid 5 .turnExpiry { t with games := setA t.games gid (gStarted g) })
    refine bbundle_trans t { t with games := setA t.games gid (gStarted g) } _ ?_ ?_
    · refine bbundle_set t _ gid g (gStarted g) h hg rfl
        (h (gid, g) (mem_of_lookupA hg)) ?_
      intro hp
      exact ⟨show ("gameplay" : String) ≠ "placement" by decide, fun pid grid hq => hq⟩
    · intro h1
      exact bbundle_of_games_eq _ _ (startTimer_games gid 5 .turnExpiry _) h1

theorem bbundle_endGame_c8 (gid : String) (t : GM) (h : BPInv t) :
    BBundle t (endGame gid t) := by
  cases hg : lookupA t.games gid with
  | none =>
    have hid : endGame gid t = t := by
      unfold endGame
      rw [hg]
    rw [hid]
    exact bbundle_refl t h
  | some g =>
    refine bbundle_set t _ gid g (endedGame g) h hg ?_
      (h (gid, g) (mem_of_lookupA hg)) ?_
    · rw [endGame_eq t gid g hg]
    · intro hp
      exact ⟨show ("ended" : String) ≠ "placement" by decide, fun pid grid hq => hq⟩

theorem bbundle_autoPlaceBombs_c8 (gid : String) (rand : List Nat) (t : GM) (h : BPInv t) :
    BBundle t (autoPlaceBombs gid rand t) := by
  unfold autoPlaceBombs
  cases hg : lookupA t.games gid with
  | none => exact bbundle_refl t h
  | some g =>
    dsimp only
    show BBundle t { t with games := setA t.games gid (gAuto g rand) }
    obtain ⟨hf1, hf2, hf3⟩ := foldl_autoFor_entries (playersOf g) (gridSizeOf g.size) g.bombs
      (g.bombPlacements, rand)
    refine bbundle_set t _ gid g (gAuto g rand) h hg rfl
      (bpok_gAuto g rand (h (gid, g) (mem_of_lookupA hg))) ?_
    intro hp
    exact ⟨hp, fun pid grid hq => hf3 pid grid hq⟩

theorem bbundle_runCb (cb : TimerCb) (gid : String) (rand : List Nat) (t : GM)
    (h : BPInv t) : BBundle t (runCb cb gid rand t) := by
  unfold runCb
  cases cb with
  | turnExpiry =>
    dsimp only
    rw [handleRoundTimeout_state]
    exact bbundle_of_games_eq t _ rfl h
  | placementExpiry =>
    dsimp only
    refine bbundle_trans t { t with fired := t.fired ++ [(gid, TimerCb.placementExpiry)] } _
      (bbundle_of_games_eq t _ rfl h) ?_
    intro h1
    refine bbundle_trans _
      (autoPlaceBombs gid rand { t with fired := t.fired ++ [(gid, TimerCb.placementExpiry)] })
      _ (bbundle_autoPlaceBombs_c8 gid rand _ h1) ?_
    intro h2
    exact bbundle_startGameplayPhase_c8 gid _ h2

theorem bbundle_tick (iid : Nat) (rand : List Nat) (s : GM) (h : BPInv s) :
    BBundle s (tick iid rand s) := by
  unfold tick
  cases hrec : lookupA s.intervals iid with
  | none => exact bbundle_refl s h
  | some rec =>
    dsimp only
    cases hgame : lookupA s.games rec.gameId with
    | none => exact bbundle_of_games_eq s _ (clearTimer_games _ s) h
    | some g =>
      dsimp only
      have b1 : BBundle s (tickMidState s iid rec g) := by
        refine bbundle_set s _ rec.gameId g
          { g with state := { g.state with timeLeft := rec.timeLeft - 1 } } h hgame rfl
          (h (rec.gameId, g) (mem_of_lookupA hgame)) ?_
        intro hp
        exact ⟨hp, fun pid grid hq => hq⟩
      split
      · show BBundle s (runCb rec.cb rec.gameId rand
          (clearTimer rec.gameId (tickMidState s iid rec g)))
        refine bbundle_trans s (tickMidState s iid rec g) _ b1 ?_
        intro h1
        refine bbundle_trans _ (clearTimer rec.gameId (tickMidState s iid rec g)) _
          (bbundle_of_games_eq _ _ (clearTimer_games _ _) h1) ?_
        intro h2
        exact bbundle_runCb rec.cb rec.gameId rand _ h2
      · exact b1

theorem bbundle_foldl {α : Type} (f : GM → α → GM)
    (hf : ∀ t a, BPInv t → BBundle t (f t a)) (l : List α) (s : GM) (h : BPInv s) :
    BBundle s (l.foldl f s) := by
  induction l generalizing s with
  | nil => exact bbundle_refl s h
  | cons a rest ih =>
    exact bbundle_trans s (f s a) _ (hf s a h) (fun h1 => ih (f s a) h1)

theorem bbundle_exitGame_c8 (gid pid : String) (s : GM) (h : BPInv s) :
    BBundle s (exitGame gid pid s) := by
  unfold exitGame
  cases lookupA s.games gid with
  | none => exact bbundle_refl s h
  | some g =>
    dsimp only
    split
    · exact bbundle_endGame_c8 gid s h
    split
    · exact bbundle_endGame_c8 gid s h
    · exact bbundle_refl s h

theorem bbundle_disconnect (pid : String) (s : GM) (h : BPInv s) :
    BBundle s (handlePlayerDisconnect pid s) := by
  unfold handlePlayerDisconnect
  refine bbundle_foldl _ ?_ _ s h
  intro t gid ht
  cases lookupA t.games gid with
  | none => exact bbundle_refl t ht
  | some g =>
    dsimp only
    split
    · exact bbundle_exitGame_c8 gid pid t ht
    · exact bbundle_refl t ht

theorem bbundle_cleanup (now : Nat) (s : GM) (h : BPInv s) :
    BBundle s (cleanupOldGames now s) := by
  unfold cleanupOldGames
  refine bbundle_foldl _ ?_ _ s h
  intro t gid ht
  cases lookupA t.games gid with
  | none => exact bbundle_refl t ht
  | some g =>
    dsimp only
    split
    · exact bbundle_endGame_c8 gid t ht
    · exact bbundle_refl t ht

theorem bbundle_parts_removal (gid : String) (s : GM) (h : BPInv s) :
    BPInv (removalFire gid s) ∧ PersistsPlus s (removalFire gid s) := by
  unfold removalFire
  split
  · constructor
    · intro e hem
      have hem' : e ∈ removeA s.games gid := hem
      exact h e (mem_removeA.1 hem').1
    · intro gid' g g' h1 h2 hp
      by_cases he : gid' = gid
      · subst he
        have h2' : lookupA (removeA s.games gid') gid' = some g' := h2
        rw [lookupA_removeA_self] at h2'
        exact Option.noConfusion h2'
      · have h2' : lookupA (removeA s.games gid) gid' = some g' := h2
        rw [lookupA_removeA_ne _ _ _ he, h1] at h2'
        obtain rfl := Option.some.inj h2'
        exact ⟨hp, fun pid grid hq => hq⟩
  · exact ⟨h, persistsPlus_of_games_eq s s rfl⟩

theorem bbundle_joinOp (gid pid : String) (bet : Int) (s : GM) (h : BPInv s) :
    BBundle s (joinOp gid pid bet s) := by
  unfold joinOp joinGame
  cases hg : lookupA s.games gid with
  | none => exact bbundle_refl s h
  | some g =>
    dsimp only
    split
    · exact bbundle_refl s h
    split
    · exact bbundle_refl s h
    split
    · exact bbundle_refl s h
    split
    · exact bbundle_refl s h
    split
    · exact bbundle_refl s h
    rename_i hst hfull hcr hpid hbet
    have hnone : g.opponent = none := by
      cases ho : g.opponent with
      | none => rfl
      | some o =>
        rw [ho] at hfull
        exact absurd rfl hfull
    show BBundle s (startGame gid { s with games := setA s.games gid (gJoined g pid) })
    refine bbundle_trans s { s with games := setA s.games gid (gJoined g pid) } _ ?_ ?_
    · refine bbundle_set s _ gid g (gJoined g pid) h hg rfl ?_ ?_
      · have hok := h (gid, g) (mem_of_lookupA hg)
        refine ⟨?_, hok.2⟩
        intro e he
        rcases hok.1 e he with h1 | h1
        · exact Or.inl h1
        · rw [hnone] at h1
          exact Option.noConfusion h1
      · intro hp
        exact ⟨hp, fun pid₀ grid hq => hq⟩
    · intro h1
      unfold startGame
      have hls : lookupA ({ s with games := setA s.games gid (gJoined g pid) } : GM).games
          gid = some (gJoined g pid) := lookupA_setA_self _ _ _
      rw [hls]
      exact bbundle_of_games_eq _ _ (startTimer_games gid 10 .placementExpiry _) h1

theorem bbundle_confirmOp (gid pid : String) (bombs : BombGrid) (s : GM) (h : BPInv s)
    (hA : ∀ g, lookupA s.games gid = some g →
      g.state.phase = "placement" ∧ (pid = g.creator ∨ some pid = g.opponent)) :
    BBundle s (confirmOp gid pid bombs s) := by
  have b1 : BBundle s (confirmBombPlacement gid pid bombs s) := by
    unfold confirmBombPlacement
    cases hg : lookupA s.games gid with
    | none => exact bbundle_refl s h
    | some g =>
      dsimp only
      obtain ⟨hph, hmem⟩ := hA g hg
      have hok : BPOkP (gConfirmed g pid bombs) := by
        have hg0 := h (gid, g) (mem_of_lookupA hg)
        refine ⟨?_, nodupKeys_setA _ _ hg0.2⟩
        intro e he
        rcases mem_setA.1 he with ⟨hm, _⟩ | hnew
        · exact hg0.1 e hm
        · rw [hnew]
          exact hmem
      by_cases h2 : (setA g.bombPlacements pid bombs).length = 2
      · rw [if_pos h2]
        have hl1 : lookupA (confirmOneState s gid pid bombs g).games gid =
            some (gConfirmed g pid bombs) := lookupA_setA_self _ _ _
        refine bbundle_trans s (confirmOneState s gid pid bombs g) _
          (bbundle_set s _ gid g (gConfirmed g pid bombs) h hg rfl hok
            (fun hp => absurd hph hp)) ?_
        intro h1
        refine bbundle_trans _ (confirmTwoState s gid pid bombs g) _
          (bbundle_set _ _ gid (gConfirmed g pid bombs) (gReady (gConfirmed g pid bombs))
            h1 hl1 rfl hok (fun hp => absurd hph hp)) ?_
        intro h2'
        refine bbundle_trans _ (clearTimer gid (confirmTwoState s gid pid bombs g)) _
          (bbundle_of_games_eq _ _ (clearTimer_games _ _) h2') ?_
        intro h3
        exact bbundle_startGameplayPhase_c8 gid _ h3
      · rw [if_neg h2]
        exact bbundle_set s _ gid g (gConfirmed g pid bombs) h hg rfl hok
          (fun hp => absurd hph hp)
  unfold confirmOp
  dsimp only
  cases hc : lookupA (confirmBombPlacement gid pid bombs s).games gid with
  | none => exact b1
  | some g' =>
    dsimp only
    split
    · exact bbundle_trans s _ _ b1 (fun h1 => bbundle_startGameplayPhase_c8 gid _ h1)
    · exact b1

theorem bbundle_revealOp (gid pid : String) (x y : Nat) (s : GM) (h : BPInv s) :
    BBundle s (revealOp gid pid x y s) := by
  unfold revealOp
  cases hr : revealField gid pid x y s with
  | error e => exact bbundle_refl s h
  | ok p =>
    obtain ⟨res, s'⟩ := p
    dsimp only
    cases hg : lookupA s.games gid with
    | none =>
      rw [revealField_err_notFound s gid pid x y hg] at hr
      exact Except.noConfusion hr
    | some g =>
      by_cases hphase : g.state.phase = "gameplay"
      case neg =>
        rw [revealField_err_phase s gid pid x y g hg hphase] at hr
        exact Except.noConfusion hr
      by_cases hturn : g.state.currentPlayer = some pid
      case neg =>
        rw [revealField_err_turn s gid pid x y g hg hphase hturn] at hr
        exact Except.noConfusion hr
      cases hrow : g.state.revealedFields.get? x with
      | none =>
        have htype : revealField gid pid x y s = .error .typeError := by
          unfold revealField
          rw [hg]
          dsimp only
          rw [if_neg (not_not_intro hphase), if_neg (not_not_intro hturn), hrow]
        rw [htype] at hr
        exact Except.noConfusion hr
      | some row =>
        cases hrev : (lookupA row y).getD false with
        | true =>
          rw [revealField_err_revealed s gid pid x y g row hg hphase hturn hrow hrev] at hr
          exact Except.noConfusion hr
        | false =>
          rw [revealField_run s gid pid x y g row hg hphase hturn hrow hrev] at hr
          have bmark : BBundle s (revealMark1 s gid x y g row) := by
            refine bbundle_set s _ gid g (gAfterMark g x y row) h hg rfl
              (h (gid, g) (mem_of_lookupA hg)) ?_
            intro hp
            exact ⟨hp, fun pid₀ grid hq => hq⟩
          cases hb : hasBombOf g pid x y with
          | true =>
            rw [hb, if_pos rfl] at hr
            injection hr with hpair
            injection hpair with hres hstate
            subst hstate
            subst hres
            show BBundle s (if true = true then endGame gid (bombState s gid x y g row)
              else bombState s gid x y g row)
            rw [if_pos rfl]
            refine bbundle_trans s (bombState s gid x y g row) _ ?_
              (fun h1 => bbundle_endGame_c8 gid _ h1)
            refine bbundle_set s _ gid g (gAfterMark g x y row) h hg rfl
              (h (gid, g) (mem_of_lookupA hg)) ?_
            intro hp
            exact ⟨hp, fun pid₀ grid hq => hq⟩
          | false =>
            rw [hb, if_neg Bool.false_ne_true] at hr
            injection hr with hpair
            injection hpair with hres hstate
            subst hstate
            subst hres
            show BBundle s (if false = true then endGame gid (coinState s gid pid x y g row)
              else coinState s gid pid x y g row)
            rw [if_neg Bool.false_ne_true]
            have hm1 : lookupA (revealMark1 s gid x y g row).games gid =
                some (gAfterMark g x y row) := lookupA_setA_self _ _ _
            refine bbundle_trans s (revealMark1 s gid x y g row) _ bmark ?_
            intro h1
            refine bbundle_trans _ (revealMark2 s gid pid x y g row) _
              (bbundle_set _ _ gid (gAfterMark g x y row) (gAfterCoin g pid x y row)
                h1 hm1 rfl (h (gid, g) (mem_of_lookupA hg))
                (fun hp => ⟨hp, fun pid₀ grid hq => hq⟩)) ?_
            intro h2
            refine bbundle_trans _ (clearTimer gid (revealMark2 s gid pid x y g row)) _
              (bbundle_of_games_eq _ _ (clearTimer_games _ _) h2) ?_
            intro h3
            exact bbundle_of_games_eq _ _ (startTimer_games gid 5 .turnExpiry _) h3

/-- Claim C8, amended.  The per-match placements invariant `BPInv` (every
stored grid belongs to the match's creator or opponent, keys unique) holds
initially and is preserved by every operation whose preconditions follow
the amendment — `create` only with an id that is not live,
`confirm-bomb-placement` only by one of the match's two participants and
only while the match is in the Placement phase.  Moreover, across each such
operation, a match that has left the Placement phase never returns to it
and every placement entry it holds persists unchanged; and under the
invariant every match has at most two `bombPlacements` entries.
Inductively this covers every operation sequence satisfying the amendment.
(The unrestricted claim is refuted by `bombPlacements_third_entry`.) -/
theorem bombPlacements_bounded_restricted :
    BPInv initGM ∧
    (∀ op s, BPInv s → AllowedC8 op s →
      BPInv (applyOp op s) ∧
      ∀ gid g g', lookupA s.games gid = some g →
        lookupA (applyOp op s).games gid = some g' →
        g.state.phase ≠ "placement" →
        ∀ pid grid, lookupA g.bombPlacements pid = some grid →
          lookupA g'.bombPlacements pid = some grid) ∧
    (∀ s gid g, BPInv s → lookupA s.games gid = some g →
      g.bombPlacements.length ≤ 2) := by
  refine ⟨by decide, ?_, ?_⟩
  · intro op s h hA
    have hb : BPInv (applyOp op s) ∧ PersistsPlus s (applyOp op s) := by
      cases op with
      | create gid now d =>
        have hc := bbundle_set_fresh s (applyOp (Op.create gid now d) s) gid
          (createGame gid now d s).1 h hA rfl
          ⟨fun e he => absurd he (List.not_mem_nil _), List.nodup_nil⟩
        exact ⟨hc.1, hc.2.1⟩
      | join gid pid bet =>
        have hc := bbundle_joinOp gid pid bet s h
        exact ⟨hc.1, hc.2.1⟩
      | confirm gid pid bombs =>
        have hc := bbundle_confirmOp gid pid bombs s h hA
        exact ⟨hc.1, hc.2.1⟩
      | reveal gid pid x y =>
        have hc := bbundle_revealOp gid pid x y s h
        exact ⟨hc.1, hc.2.1⟩
      | timerTick iid rand =>
        have hc := bbundle_tick iid rand s h
        exact ⟨hc.1, hc.2.1⟩
      | exit gid pid =>
        have hc := bbundle_exitGame_c8 gid pid s h
        exact ⟨hc.1, hc.2.1⟩
      | disconnect pid =>
        have hc := bbundle_disconnect pid s h
        exact ⟨hc.1, hc.2.1⟩
      | endMatch gid =>
        have hc := bbundle_endGame_c8 gid s h
        exact ⟨hc.1, hc.2.1⟩
      | cleanup now =>
        have hc := bbundle_cleanup now s h
        exact ⟨hc.1, hc.2.1⟩
      | removal gid =>
        exact bbundle_parts_removal gid s h
    refine ⟨hb.1, ?_⟩
    intro gid g g' h1 h2 hp pid grid hq
    exact (hb.2 gid g g' h1 h2 hp).2 pid grid hq
  · intro s gid g h hl
    have hok := h (gid, g) (mem_of_lookupA hl)
    exact length_le_two_of_keys hok.1 hok.2

/-- Witness for the amended C8 at a concrete input: ending the live
demonstration match preserves the placements invariant. -/
theorem bombPlacements_bounded_restricted_witness :
    BPInv (applyOp (Op.endMatch "g1") demo4) := by
  have h1 : BPInv demo4 := by decide
  exact (bombPlacements_bounded_restricted.2.1 (Op.endMatch "g1") demo4 h1 trivial).1
